import Mathlib

/-!
Verification development for the cs453 program-analysis-platform core.

The definitions below are shallow embeddings of the Rust sources:

* `src/worker/src/packet.rs` — the content-addressed packet registry
  (`Registry::new`, `Registry::register`, `copy_dir_recursive`);
* `src/worker/src/util_docker.rs` — the sandbox driver (`Dock::_run`,
  `Dock::sandbox`);
* `src/worker/src/process.rs` — the analysis pipeline (`analyze`,
  `provision`) and the worker administrative binary `src/worker/src/main.rs`;
* `src/server/src/main.rs` — the server startup re-queueing loop.

Filesystems are modelled as association lists of named nodes in
directory-listing order; fallible operations return `Except String`;
externally-supplied effects (the SHA3-256 compression function from the
`sha3` crate, I/O failures during installation, the container engine's
responses) are parameters of the embedding.
-/

/-- Bytes of an ASCII string literal, as used for hash domain separators. -/
def strBytes (s : String) : List Nat := s.toList.map Char.toNat

/-- `usize::to_ne_bytes` on the 64-bit target: 8 bytes, little endian. -/
def toNeBytes (n : Nat) : List Nat := (List.range 8).map fun k => n / 256 ^ k % 256

/-- Lowercase hexadecimal digit for a value below 16. -/
def hexDigit (n : Nat) : Char := if n < 10 then Char.ofNat (48 + n) else Char.ofNat (87 + n)

/-- `hex::encode`: two lowercase hex digits per byte, in order. -/
def hexEncode (bs : List Nat) : String :=
  String.mk ((bs.map fun b => [hexDigit (b / 16 % 16), hexDigit (b % 16)]).flatten)

/-- Decimal digits of a natural number, most significant first, via
explicit fuel so that concrete instances reduce by evaluation. -/
def natDigitsF : Nat → Nat → List Nat
  | 0, _ => []
  | fuel + 1, n => if n < 10 then [n] else natDigitsF fuel (n / 10) ++ [n % 10]

/-- Decimal digits of a natural number (the fuel `n + 1` always suffices). -/
def natDigits (n : Nat) : List Nat := natDigitsF (n + 1) n

/-- `usize::to_string`: the decimal numeral of an index, as used by the
test-case renaming in `Registry::register`. -/
def natNumeral (n : Nat) : String :=
  String.mk ((natDigits n).map fun d => Char.ofNat (48 + d))

/-- Value of a most-significant-first decimal digit list; recovers the
number a numeral denotes. -/
def digitsVal (l : List Nat) : Nat := l.foldl (fun a d => 10 * a + d) 0

/-- A filesystem node: a regular file with its byte content, or a directory
with its child entries in directory-listing order. -/
inductive FNode where
  | file (content : List Nat)
  | dir (entries : List (String × FNode))

/-- `file_type().is_file()` -/
def FNode.isFile : FNode → Bool
  | .file _ => true
  | .dir _ => false

/-- `file_type().is_dir()` -/
def FNode.isDir : FNode → Bool
  | .file _ => false
  | .dir _ => true

/-- Find the node with the given name in a directory's entry list. -/
def lookupEntry : List (String × FNode) → String → Option FNode
  | [], _ => none
  | (nm, nd) :: rest, k => if nm = k then some nd else lookupEntry rest k

/-- Replace the node stored under an existing name, keeping listing order. -/
def setEntry : List (String × FNode) → String → FNode → List (String × FNode)
  | [], _, _ => []
  | (nm, nd) :: rest, k, v => if nm = k then (k, v) :: rest else (nm, nd) :: setEntry rest k v

/-- `fs::write` / `fs::create_dir_all` inside a directory: overwrite the node
under the name if present, otherwise append a fresh entry. -/
def writeEntry (es : List (String × FNode)) (k : String) (v : FNode) : List (String × FNode) :=
  if (lookupEntry es k).isSome then setEntry es k v else es ++ [(k, v)]

/-- `str::starts_with`, via character lists so that concrete instances
reduce by evaluation. -/
def strStartsWith (s p : String) : Bool := List.isPrefixOf p.toList s.toList

/-- The validation scan of `Registry::register` (packet.rs lines 118-140):
walk the base directory in listing order; keep the four known names, delete
`README*` regular files and `output*` directories, and stop with an error at
the first unrecognized name.  Returns the outcome together with the base
directory as it stands when the loop stops (removals before an error
persist; entries at and after the failing one are untouched). -/
def scanBase : List (String × FNode) → Except String Unit × List (String × FNode)
  | [] => (.ok (), [])
  | (nm, nd) :: rest =>
    if nm = "main.c" ∨ nm = "interface.h" ∨ nm = "input" ∨ nm = "crash" then
      let r := scanBase rest
      (r.1, (nm, nd) :: r.2)
    else if strStartsWith nm "README" && nd.isFile then
      scanBase rest
    else if strStartsWith nm "output" && nd.isDir then
      scanBase rest
    else (.error ("unrecognized item: " ++ nm), (nm, nd) :: rest)

/-- First validation loop over a test directory (packet.rs lines 165-177 and
195-207): every child must be a regular file of at most 1024 bytes; collect
the paths (names) in listing order for the second loop. -/
def checkCases (tag : String) : List (String × FNode) → Except String (List String)
  | [] => .ok []
  | (nm, FNode.file c) :: rest =>
    if c.length > 1024 then .error (tag ++ "/" ++ nm ++ " is too big")
    else
      match checkCases tag rest with
      | .error e => .error e
      | .ok ns => .ok (nm :: ns)
  | (nm, FNode.dir _) :: _ => .error (tag ++ "/" ++ nm ++ " is invalid")

/-- Remove the first entry with the given name from a directory. -/
def eraseEntry : List (String × FNode) → String → List (String × FNode)
  | [], _ => []
  | (nm, nd) :: rest, k => if nm = k then rest else (nm, nd) :: eraseEntry rest k

/-- `fs::rename` inside one directory, with POSIX semantics: the entry at
`src` moves to `dst`, silently replacing an existing `dst` entry; renaming
a file to its own name succeeds and changes nothing.  (A fresh destination
is listed at the end; directory listing order is unspecified by the OS, so
the model fixes this convention.)  The missing-source branch is unreachable
in `register`: the second loop only renames paths collected by the first. -/
def renameEntry (es : List (String × FNode)) (src dst : String) : List (String × FNode) :=
  if src = dst then es
  else
    match lookupEntry es src with
    | none => es
    | some nd =>
      if (lookupEntry (eraseEntry es src) dst).isSome then
        setEntry (eraseEntry es src) dst nd
      else eraseEntry es src ++ [(dst, nd)]

/-- The second loop of `Registry::register` over a test directory
(packet.rs lines 178-187 and 208-217), per collected path in listing
order: open the file at the originally-collected path and feed the hasher
the tag literal, the native-endian index bytes and the file's current
bytes; then `fs::rename` the path to the decimal index.  Because the
rename can overwrite a later-listed sibling named like the index, later
iterations may read replaced content. -/
def hashRenameLoop (tag : String) : Nat → List String → List (String × FNode) →
    Except String (List Nat) × List (String × FNode)
  | _, [], dir => (.ok [], dir)
  | i, nm :: rest, dir =>
    match lookupEntry dir nm with
    | some (FNode.file c) =>
      match hashRenameLoop tag (i + 1) rest (renameEntry dir nm (natNumeral i)) with
      | (.ok s, dir2) => (.ok (strBytes tag ++ toNeBytes i ++ c ++ s), dir2)
      | (.error e, dir2) => (.error e, dir2)
    | _ => (.error (tag ++ "/" ++ nm ++ " is unreadable"), dir)

/-- The byte stream the hashing loop produces when no rename overwrites a
later-listed sibling: for each case, the tag literal, the native-endian
index bytes and the case's original content, in order. -/
def hashCases (tag : String) (start : Nat) : List (List Nat) → List Nat
  | [] => []
  | c :: rest => strBytes tag ++ toNeBytes start ++ c ++ hashCases tag (start + 1) rest

/-- No later-listed test name equals the decimal numeral of an earlier
position's index: under this condition no `fs::rename` of the second loop
overwrites a not-yet-processed sibling. -/
def namesSafeB : Nat → List String → Bool
  | _, [] => true
  | i, _ :: rest => rest.all (fun s => s != natNumeral i) && namesSafeB (i + 1) rest

/-- Every case content is present in the directory under its decimal index
name, starting at the given index. -/
def casesRenamed (d : List (String × FNode)) : Nat → List (List Nat) → Prop
  | _, [] => True
  | i, c :: rest => lookupEntry d (natNumeral i) = some (FNode.file c) ∧
      casesRenamed d (i + 1) rest

/-- Outcomes of the fallible filesystem calls made while installing a fresh
packet (packet.rs lines 223-249).  `copyFail = some k` means
`copy_dir_recursive` fails after copying the first `k` entries. -/
structure InstallOracle where
  mkdirOk : Bool
  copyFail : Option Nat
  writeOk : Bool
  outputOk : Bool

/-- The oracle under which no installation I/O call fails. -/
def ioAllOk : InstallOracle := ⟨true, none, true, true⟩

/-- The registry root on disk: hash → entries of `<root>/H/`. -/
abbrev RegState := List (String × List (String × FNode))

/-- Find a packet directory by hash. -/
def regLookup : RegState → String → Option (List (String × FNode))
  | [], _ => none
  | (h, es) :: rest, k => if h = k then some es else regLookup rest k

/-- Replace the contents stored under an existing hash. -/
def regSet : RegState → String → List (String × FNode) → RegState
  | [], _, _ => []
  | (h, es) :: rest, k, v => if h = k then (k, v) :: rest else (h, es) :: regSet rest k v

/-- Installation of a freshly created packet directory (packet.rs lines
238-249): recursively copy the validated base, overwrite `interface.h` with
the bundled asset, create `output/`.  The packet directory `<root>/H/` was
already created empty; every failure leaves whatever was written so far. -/
def installPacket (asset : List Nat) (orc : InstallOracle) (reg : RegState) (h : String)
    (es : List (String × FNode)) : Except String Unit × RegState :=
  match orc.copyFail with
  | some k => (.error "copy failed", regSet reg h (es.take k))
  | none =>
    if !orc.writeOk then (.error "unable to write interface.h", regSet reg h es)
    else
      let withIface := writeEntry es "interface.h" (FNode.file asset)
      if !orc.outputOk then (.error "unable to create output directory", regSet reg h withIface)
      else (.ok (), regSet reg h (writeEntry withIface "output" (FNode.dir [])))

/-- Result of a `Registry::register` call: the returned value (hash and
`existed` flag, or the bail message), the caller-supplied source directory
after the call, and the registry root after the call. -/
structure RegResult where
  res : Except String (String × Bool)
  src : List (String × FNode)
  reg : RegState

/-- The validation-and-hashing phase of `Registry::register` (packet.rs
lines 118-221): scan and prune the base, check `main.c`, then for each of
`input/` and `crash/` run the two loops — first collect and size-check the
child paths, then per collected path hash the file at that path and
`fs::rename` it to its decimal index (`hashRenameLoop`).  Returns the
hasher's update stream (or the bail message) together with the base
directory after the phase — the pruning and renames already performed
persist even when the phase fails. -/
def registerValidate (es : List (String × FNode)) :
    Except String (List Nat) × List (String × FNode) :=
  match scanBase es with
  | (.error e, es1) => (.error e, es1)
  | (.ok (), es1) =>
    match lookupEntry es1 "main.c" with
    | some (FNode.file mc) =>
      if mc.length > 256 * 1024 then (.error "main.c is too big", es1)
      else
        match lookupEntry es1 "input" with
        | some (FNode.dir ics) =>
          match checkCases "input" ics with
          | .error e => (.error e, es1)
          | .ok inNames =>
            match hashRenameLoop "input" 0 inNames ics with
            | (.error e, ics2) => (.error e, setEntry es1 "input" (FNode.dir ics2))
            | (.ok inStream, ics2) =>
              match lookupEntry (setEntry es1 "input" (FNode.dir ics2)) "crash" with
              | some (FNode.dir ccs) =>
                match checkCases "crash" ccs with
                | .error e => (.error e, setEntry es1 "input" (FNode.dir ics2))
                | .ok crNames =>
                  match hashRenameLoop "crash" 0 crNames ccs with
                  | (.error e, ccs2) =>
                    (.error e, setEntry (setEntry es1 "input" (FNode.dir ics2)) "crash"
                      (FNode.dir ccs2))
                  | (.ok crStream, ccs2) =>
                    (.ok (strBytes "program" ++ mc ++ inStream ++ crStream),
                     setEntry (setEntry es1 "input" (FNode.dir ics2)) "crash"
                       (FNode.dir ccs2))
              | _ => (.error "crash/ is missing", setEntry es1 "input" (FNode.dir ics2))
        | _ => (.error "input/ is missing", es1)
    | _ => (.error "main.c is missing", es1)

/-- `Registry::register` from the probed base onwards (packet.rs lines
118-252): the validation phase above, then — under the registry-wide write
lock — the existence test on `<root>/H/`, the empty-directory creation, and
the installation.  `sha3` is the SHA3-256 compression function of the
external `sha3` crate, abstracted as a function from the accumulated update
stream to the digest bytes; `asset` is the embedded `asset/interface.h`
content. -/
def registerBase (sha3 : List Nat → List Nat) (asset : List Nat) (orc : InstallOracle)
    (reg : RegState) (es : List (String × FNode)) : RegResult :=
  match registerValidate es with
  | (.error e, es1) => ⟨.error e, es1, reg⟩
  | (.ok stream, es3) =>
    let h := hexEncode (sha3 stream)
    if (regLookup reg h).isSome then ⟨.ok (h, true), es3, reg⟩
    else if !orc.mkdirOk then ⟨.error "unable to create packet directory", es3, reg⟩
    else
      match installPacket asset orc (reg ++ [(h, [])]) h es3 with
      | (.error e, reg2) => ⟨.error e, es3, reg2⟩
      | (.ok (), reg2) => ⟨.ok (h, false), es3, reg2⟩

/-- `Registry::register` including the nesting probe (packet.rs lines
99-116): if the uploaded directory holds exactly one entry and that entry is
a directory, it becomes the base; otherwise the upload root is the base. -/
def register (sha3 : List Nat → List Nat) (asset : List Nat) (orc : InstallOracle)
    (reg : RegState) (src : List (String × FNode)) : RegResult :=
  match src with
  | [(nm, FNode.dir inner)] =>
    let r := registerBase sha3 asset orc reg inner
    ⟨r.res, [(nm, FNode.dir r.src)], r.reg⟩
  | _ => registerBase sha3 asset orc reg src

/-- Modelled from the specification text of the packet ID (spec section 3):
the byte stream is the literal `"program"` followed by the bytes of
`main.c`; then for each input case `i` in order the literal `"input"`, the
native-endian machine-word encoding of `i` and the case bytes; then the same
for the crash cases with literal `"crash"`.  This is the comparison
definition for the refinement claim about the hash stream; the executable
embedding of the code builds its stream in `registerBase`. -/
def specStream (mainc : List Nat) (ins crs : List (List Nat)) : List Nat :=
  strBytes "program" ++ mainc
    ++ (ins.enum.map fun p => strBytes "input" ++ toNeBytes p.1 ++ p.2).flatten
    ++ (crs.enum.map fun p => strBytes "crash" ++ toNeBytes p.1 ++ p.2).flatten

/-- A submission base in canonical shape: `main.c`, then `input/` and
`crash/` with named regular-file cases in listing order. -/
def canonBase (mc : List Nat) (ins crs : List (String × List Nat)) :
    List (String × FNode) :=
  [("main.c", FNode.file mc),
   ("input", FNode.dir (ins.map fun p => (p.1, FNode.file p.2))),
   ("crash", FNode.dir (crs.map fun p => (p.1, FNode.file p.2)))]

/-- A packet directory counts as fully populated when it holds `main.c`,
`interface.h`, `input/`, `crash/` and `output/`. -/
def fullyPopulated (es : List (String × FNode)) : Bool :=
  (lookupEntry es "main.c").isSome && (lookupEntry es "interface.h").isSome &&
    (lookupEntry es "input").isSome && (lookupEntry es "crash").isSome &&
    (lookupEntry es "output").isSome

/-! ## Sandbox driver (`src/worker/src/util_docker.rs`) -/

/-- Exit status of a sandboxed execution (util_docker.rs lines 30-34). -/
inductive ExitStatus where
  | success
  | failure
  | timeout
deriving DecidableEq

/-- The execution-relevant configuration `Dock::_run` passes to the engine
when creating and following a container. -/
structure RunConfig where
  net : Bool
  tty : Bool
  console : Bool
  timeout : Option Nat
deriving DecidableEq

/-- Responses of the external container engine for one `_run` invocation. -/
structure DockOracle where
  imageExists : Bool
  createOk : Bool
  createWarnings : Bool
  startOk : Bool
  execResult : Except String ExitStatus
  commitOk : Bool

/-- Outcome of one `_run` invocation: the returned value, the set of
containers existing afterwards, and the configuration of the container this
call created (none when creation was never reached or failed). -/
structure RunOutcome where
  res : Except String ExitStatus
  containers : List String
  created : Option RunConfig

/-- Ephemeral container name (util_docker.rs line 376). -/
def ephemeralName (tag drvName : String) : String := tag ++ "-ephemeral-" ++ drvName

/-- Creation followed by removal of the ephemeral container: the engine
state after `del_container` ran on the container this call created
(`remove_container(force)` per the engine contract). -/
def removedState (st : List String) (ename : String) : List String :=
  (st ++ [ename]).filter fun n => n != ename

/-- `Dock::_run` (util_docker.rs lines 363-487) over an abstract engine
state (the list of existing container names) and an engine-response oracle.
Container removal is modelled by the engine contract of
`remove_container(force)`. -/
def runModel (tag drvName : String) (commit : Option String) (cfg : RunConfig)
    (orc : DockOracle) (st : List String) : RunOutcome :=
  if st.contains (ephemeralName tag drvName) then
    ⟨.error "container already exists", st, none⟩
  else if !orc.imageExists then
    ⟨.error "image does not exist", st, none⟩
  else if !orc.createOk then
    ⟨.error "container creation failed", st, none⟩
  else if orc.createWarnings then
    ⟨.error "unexpected warning in docker container creation",
      removedState st (ephemeralName tag drvName), some cfg⟩
  else if !orc.startOk then
    ⟨.error "failed to start container", removedState st (ephemeralName tag drvName), some cfg⟩
  else
    match orc.execResult with
    | .error e => ⟨.error e, removedState st (ephemeralName tag drvName), some cfg⟩
    | .ok status =>
      match commit with
      | some _ =>
        match status with
        | .success =>
          if orc.commitOk then
            ⟨.ok .success, removedState st (ephemeralName tag drvName), some cfg⟩
          else ⟨.error "commit failed", removedState st (ephemeralName tag drvName), some cfg⟩
        | _ => ⟨.error "aborting commit due to execution failure",
            removedState st (ephemeralName tag drvName), some cfg⟩
      | none => ⟨.ok status, removedState st (ephemeralName tag drvName), some cfg⟩

/-- `Dock::sandbox` (util_docker.rs lines 550-568) via `invoke`: no commit
target, networking off, tty on, console output dropped, and the 60-second
default when no timeout is given. -/
def sandboxModel (tag drvName : String) (timeout : Option Nat) (orc : DockOracle)
    (st : List String) : RunOutcome :=
  runModel tag drvName none ⟨false, true, false, some (timeout.getD 60)⟩ orc st

/-! ## Analysis pipeline (`src/worker/src/process.rs`) -/

/-- Result of the baseline stage (tool_gcov.rs lines 38-45). -/
structure ResultBaseline where
  compiled : Bool
  input_pass : Nat
  input_fail : Nat
  crash_pass : Nat
  crash_fail : Nat
deriving DecidableEq

/-- Result of the coverage stage (tool_gcov.rs lines 165-169). -/
structure ResultGcov where
  completed : Bool
  num_blocks : Nat
  cov_blocks : Nat
deriving DecidableEq

/-- Result of the fuzzing stage (tool_aflpp.rs lines 38-41). -/
structure ResultAFLpp where
  completed : Bool
  num_crashes : Nat
deriving DecidableEq

/-- Result of the symbolic stage (tool_klee.rs lines 38-41). -/
structure ResultKLEE where
  completed : Bool
  num_crashes : Nat
deriving DecidableEq

/-- Result of the hybrid stage (tool_symcc.rs lines 53-56); defined in the
sources but never aggregated by `analyze`. -/
structure ResultSymCC where
  completed : Bool
  num_crashes : Nat
deriving DecidableEq

/-- The aggregate analysis result (process.rs lines 20-26): exactly the four
stage results. -/
structure AnalysisResult where
  result_baseline : ResultBaseline
  result_gcov : ResultGcov
  result_aflpp : ResultAFLpp
  result_klee : ResultKLEE
deriving DecidableEq

/-- `analyze` (process.rs lines 49-62): run the stage functions in program
order, threading the world state `σ` (driver, registry, packet directory);
any stage failure short-circuits, and the four stage results are aggregated.
The stage runners are the embeddings of `run_baseline`, `run_gcov`,
`run_aflpp` and `run_klee`, abstracted over their effects. -/
def analyze {σ ε : Type} (runBaseline : σ → Except ε (ResultBaseline × σ))
    (runGcov : σ → Except ε (ResultGcov × σ))
    (runAflpp : σ → Except ε (ResultAFLpp × σ))
    (runKlee : σ → Except ε (ResultKLEE × σ)) (s : σ) : Except ε (AnalysisResult × σ) :=
  match runBaseline s with
  | .error e => .error e
  | .ok (result_baseline, s) =>
    match runGcov s with
    | .error e => .error e
    | .ok (result_gcov, s) =>
      match runAflpp s with
      | .error e => .error e
      | .ok (result_aflpp, s) =>
        match runKlee s with
        | .error e => .error e
        | .ok (result_klee, s) =>
          .ok (⟨result_baseline, result_gcov, result_aflpp, result_klee⟩, s)

/-- A stage runner instrumented to record its name in a trace; used to
observe which stages `analyze` actually runs and in what order. -/
def traceStage {ρ : Type} (name : String) (r : ρ) :
    List String → Except String (ρ × List String) :=
  fun tr => .ok (r, tr ++ [name])

/-! ## Registry construction and server startup
(`Registry::new` in packet.rs, `main` in `src/server/src/main.rs`) -/

/-- Packet analysis status (packet.rs lines 33-38). -/
inductive PStatus where
  | received
  | onError
  | completed
deriving DecidableEq

/-- One child of the registry root as seen by `Registry::new`: its name and
whether `result.json` and `error` exist inside it. -/
structure RootEntry where
  name : String
  hasResult : Bool
  hasError : Bool
deriving DecidableEq

/-- Lexicographic strict order on character lists, by code point; the
`Ord` the `BTreeMap` of hashes uses, made executable. -/
def charListLt : List Char → List Char → Bool
  | [], [] => false
  | [], _ :: _ => true
  | _ :: _, [] => false
  | a :: as, b :: bs =>
    if a.toNat < b.toNat then true
    else if b.toNat < a.toNat then false
    else charListLt as bs

/-- Lexicographic strict order on strings. -/
def strLtB (a b : String) : Bool := charListLt a.toList b.toList

/-- `BTreeMap::insert`: keep the association list sorted by key, replacing
an existing binding. -/
def insertSorted : List (String × PStatus) → String → PStatus → List (String × PStatus)
  | [], k, v => [(k, v)]
  | (k0, v0) :: rest, k, v =>
    if strLtB k k0 then (k, v) :: (k0, v0) :: rest
    else if k = k0 then (k, v) :: rest
    else (k0, v0) :: insertSorted rest k v

/-- The scan loop of `Registry::new` (packet.rs lines 56-82), status-map
part: each child with `result.json` is recorded `Completed`, every other
child is recorded `Received`. -/
def scanMap : List RootEntry → List (String × PStatus) → List (String × PStatus)
  | [], acc => acc
  | e :: rest, acc =>
    scanMap rest (insertSorted acc e.name (if e.hasResult then .completed else .received))

/-- The scan loop of `Registry::new`, filesystem part: a stray `error`
marker in a child without `result.json` is deleted. -/
def cleanEntries (es : List RootEntry) : List RootEntry :=
  es.map fun e => if e.hasResult then e else { e with hasError := false }

/-- The in-memory registry state relevant to startup: the status map (a
sorted `BTreeMap`) and the FIFO queue. -/
structure RegistryM where
  packets : List (String × PStatus)
  queue : List String
deriving DecidableEq

/-- `Registry::new` (packet.rs lines 49-89): fail unless the root is an
existing directory; otherwise scan the children and start with an empty
queue.  Returns the registry and the root entries after stray-error
deletion. -/
def registryNew (rootExists rootIsDir : Bool) (entries : List RootEntry) :
    Except String (RegistryM × List RootEntry) :=
  if !(rootExists && rootIsDir) then .error "invalid root path for registry"
  else .ok (⟨scanMap entries [], []⟩, cleanEntries entries)

/-- `Registry::queue` (packet.rs lines 319-327): push onto the FIFO queue
and set the status to `Received`. -/
def queueOp (r : RegistryM) (h : String) : RegistryM :=
  ⟨insertSorted r.packets h .received, r.queue ++ [h]⟩

/-- The server startup loop (server main.rs lines 208-216): iterate over a
snapshot of the status map (sorted `BTreeMap` order) and, for every packet
recorded `Received`, call `Registry::queue` and send it on the channel.
Returns the registry and the channel contents afterwards. -/
def serverInit (r : RegistryM) : RegistryM × List String :=
  r.packets.foldl
    (fun acc p => if p.2 = .received then (queueOp acc.1 p.1, acc.2 ++ [p.1]) else acc)
    (r, [])

/-! ## Worker administrative binary (`src/worker/src/main.rs`, process.rs) -/

/-- The `FORCE_PROVISION` environment variable handling (worker main.rs
lines 17-20): absent means no force; a present value forces exactly when it
is the string `"1"` (a non-UTF8 value is modelled as a value distinct from
`"1"`). -/
def forceProvision (env : Option String) : Bool :=
  match env with
  | none => false
  | some v => v == "1"

/-- `provision` (process.rs lines 12-18): build the gcov, AFL++ and KLEE
images in order, passing the force flag through; any failure
short-circuits. -/
def provisionModel {ε : Type} (buildGcov buildAfl buildKlee : Bool → Except ε Unit)
    (force : Bool) : Except ε Unit :=
  match buildGcov force with
  | .error e => .error e
  | .ok () =>
    match buildAfl force with
    | .error e => .error e
    | .ok () =>
      match buildKlee force with
      | .error e => .error e
      | .ok () => .ok ()

/-- The worker administrative `main` (worker main.rs lines 7-29): read the
environment variable, run provisioning, and on failure log the diagnostic
and fall through — the process exit code is 0 on both branches. -/
def workerMain (env : Option String) (provisionF : Bool → Except String Unit) : Nat :=
  match provisionF (forceProvision env) with
  | .ok () => 0
  | .error _ => 0

/-! ## Derived descriptions used by the theorems -/

/-- The hasher update stream `registerValidate` accumulates on a canonical
base: program part, then the indexed input and crash parts. -/
def canonStream (mc : List Nat) (ins crs : List (String × List Nat)) : List Nat :=
  strBytes "program" ++ mc ++ hashCases "input" 0 (ins.map Prod.snd)
    ++ hashCases "crash" 0 (crs.map Prod.snd)

/-- Degenerate stand-in for the SHA3-256 compression function, used to
instantiate concrete runs (the hash function is external to the sources). -/
def sha3c : List Nat → List Nat := fun _ => []

/-- The names the validation scan permits, per the specification: the four
fixed names, `README`-led regular files, and `output`-led directories. -/
def permittedEntry (nm : String) (nd : FNode) : Bool :=
  nm == "main.c" || nm == "interface.h" || nm == "input" || nm == "crash" ||
    (strStartsWith nm "README" && nd.isFile) || (strStartsWith nm "output" && nd.isDir)

/-- Find a status by hash in the status map. -/
def pLookup : List (String × PStatus) → String → Option PStatus
  | [], _ => none
  | (k0, v0) :: rest, k => if k0 = k then some v0 else pLookup rest k

/-- Names of the packets recorded `Received`, in status-map order. -/
def receivedNames (ps : List (String × PStatus)) : List String :=
  (ps.filter fun p => p.2 = .received).map Prod.fst

/-! ## Helper lemmas -/

theorem lookupEntry_setEntry_isSome (es : List (String × FNode)) (k k' : String) (v : FNode) :
    (lookupEntry (setEntry es k v) k').isSome = (lookupEntry es k').isSome := by
  induction es with
  | nil => rfl
  | cons p rest ih =>
    obtain ⟨nm, nd⟩ := p
    by_cases hk : nm = k
    · subst hk
      simp only [setEntry, if_pos rfl]
      by_cases h' : nm = k' <;> simp [lookupEntry, h']
    · simp only [setEntry, if_neg hk]
      by_cases h' : nm = k' <;> simp [lookupEntry, h', ih]

theorem lookupEntry_setEntry_self (es : List (String × FNode)) (k : String) (v : FNode)
    (h : (lookupEntry es k).isSome = true) : lookupEntry (setEntry es k v) k = some v := by
  induction es with
  | nil => simp [lookupEntry] at h
  | cons p rest ih =>
    obtain ⟨nm, nd⟩ := p
    by_cases hk : nm = k
    · subst hk
      simp only [setEntry, if_pos rfl]
      simp [lookupEntry]
    · simp only [lookupEntry, if_neg hk] at h
      simp only [setEntry, if_neg hk]
      simp [lookupEntry, hk, ih h]

theorem lookupEntry_setEntry_ne (es : List (String × FNode)) (k k' : String) (v : FNode)
    (h : k' ≠ k) : lookupEntry (setEntry es k v) k' = lookupEntry es k' := by
  induction es with
  | nil => rfl
  | cons p rest ih =>
    obtain ⟨nm, nd⟩ := p
    by_cases hk : nm = k
    · subst hk
      simp only [setEntry, if_pos rfl]
      simp [lookupEntry, Ne.symm h]
    · simp only [setEntry, if_neg hk]
      by_cases h' : nm = k' <;> simp [lookupEntry, h', ih]

theorem lookupEntry_append_ne (es : List (String × FNode)) (k k' : String) (v : FNode)
    (h : k' ≠ k) : lookupEntry (es ++ [(k, v)]) k' = lookupEntry es k' := by
  induction es with
  | nil => simp [lookupEntry, Ne.symm h]
  | cons p rest ih =>
    obtain ⟨nm, nd⟩ := p
    by_cases h' : nm = k' <;> simp [lookupEntry, h', ih]

theorem lookupEntry_append_self (es : List (String × FNode)) (k : String) (v : FNode)
    (h : lookupEntry es k = none) : lookupEntry (es ++ [(k, v)]) k = some v := by
  induction es with
  | nil => simp [lookupEntry]
  | cons p rest ih =>
    obtain ⟨nm, nd⟩ := p
    by_cases h' : nm = k
    · simp [lookupEntry, h'] at h
    · simp [lookupEntry, h'] at h ⊢
      exact ih h

theorem lookupEntry_writeEntry_self (es : List (String × FNode)) (k : String) (v : FNode) :
    lookupEntry (writeEntry es k v) k = some v := by
  unfold writeEntry
  by_cases h : (lookupEntry es k).isSome
  · simp [h, lookupEntry_setEntry_self es k v h]
  · have hn : lookupEntry es k = none := by
      cases hx : lookupEntry es k
      · rfl
      · simp [hx] at h
    simp [h, lookupEntry_append_self es k v hn]

theorem lookupEntry_writeEntry_ne (es : List (String × FNode)) (k k' : String) (v : FNode)
    (h : k' ≠ k) : lookupEntry (writeEntry es k v) k' = lookupEntry es k' := by
  unfold writeEntry
  by_cases hs : (lookupEntry es k).isSome
  · simp [hs, lookupEntry_setEntry_ne es k k' v h]
  · simp [hs, lookupEntry_append_ne es k k' v h]

theorem regLookup_regSet_isSome (rs : RegState) (k k' : String) (v : List (String × FNode)) :
    (regLookup (regSet rs k v) k').isSome = (regLookup rs k').isSome := by
  induction rs with
  | nil => rfl
  | cons p rest ih =>
    obtain ⟨h0, e0⟩ := p
    by_cases hk : h0 = k
    · subst hk
      simp only [regSet, if_pos rfl]
      by_cases h' : h0 = k' <;> simp [regLookup, h']
    · simp only [regSet, if_neg hk]
      by_cases h' : h0 = k' <;> simp [regLookup, h', ih]

theorem regLookup_append_isSome (rs : RegState) (k : String) (v : List (String × FNode)) :
    (regLookup (rs ++ [(k, v)]) k).isSome = true := by
  induction rs with
  | nil => simp [regLookup]
  | cons p rest ih =>
    obtain ⟨h0, e0⟩ := p
    by_cases h' : h0 = k <;> simp [regLookup, h', ih]

theorem regSet_append (rs : RegState) (k : String) (w v : List (String × FNode))
    (h : regLookup rs k = none) : regSet (rs ++ [(k, w)]) k v = rs ++ [(k, v)] := by
  induction rs with
  | nil => simp [regSet]
  | cons p rest ih =>
    obtain ⟨h0, e0⟩ := p
    by_cases h' : h0 = k
    · simp [regLookup, h'] at h
    · simp [regLookup, h'] at h
      simp [regSet, h', ih h]

theorem installPacket_reg_isSome (asset : List Nat) (orc : InstallOracle) (rs : RegState)
    (h k : String) (es : List (String × FNode)) :
    (regLookup (installPacket asset orc rs h es).2 k).isSome = (regLookup rs k).isSome := by
  unfold installPacket
  cases hc : orc.copyFail
  · by_cases hw : orc.writeOk <;> by_cases ho : orc.outputOk <;>
      simp [hw, ho, regLookup_regSet_isSome]
  · simp [regLookup_regSet_isSome]

theorem installPacket_allOk (asset : List Nat) (rs : RegState) (h : String)
    (es : List (String × FNode)) :
    installPacket asset ioAllOk rs h es =
      (.ok (), regSet rs h
        (writeEntry (writeEntry es "interface.h" (FNode.file asset)) "output" (FNode.dir []))) :=
  rfl

theorem scanBase_canon (mc : List Nat) (ins crs : List (String × List Nat)) :
    scanBase (canonBase mc ins crs) = (.ok (), canonBase mc ins crs) := rfl

theorem checkCases_map_ok (tag : String) (cs : List (String × List Nat))
    (h : ∀ p ∈ cs, (p.2).length ≤ 1024) :
    checkCases tag (cs.map fun p => (p.1, FNode.file p.2)) = .ok (cs.map Prod.fst) := by
  induction cs with
  | nil => rfl
  | cons c rest ih =>
    obtain ⟨nm, cc⟩ := c
    have hc : cc.length ≤ 1024 := h (nm, cc) (List.mem_cons_self _ _)
    have hrest : ∀ p ∈ rest, (p.2 : List Nat).length ≤ 1024 :=
      fun p hp => h p (List.mem_cons_of_mem _ hp)
    simp only [List.map_cons, checkCases]
    rw [if_neg (by omega), ih hrest]

theorem digitsVal_append (l : List Nat) (d : Nat) :
    digitsVal (l ++ [d]) = 10 * digitsVal l + d := by
  simp [digitsVal, List.foldl_append]

theorem natDigitsF_val (fuel : Nat) : ∀ n : Nat, n < fuel →
    digitsVal (natDigitsF fuel n) = n := by
  induction fuel with
  | zero => intro n h; exact absurd h (Nat.not_lt_zero n)
  | succ f ih =>
    intro n h
    by_cases h10 : n < 10
    · simp only [natDigitsF, if_pos h10]
      simp [digitsVal]
    · have hd : n / 10 < f := by omega
      simp only [natDigitsF, if_neg h10]
      rw [digitsVal_append, ih _ hd]
      omega

theorem natDigitsF_lt (fuel : Nat) : ∀ n : Nat, n < fuel →
    ∀ d ∈ natDigitsF fuel n, d < 10 := by
  induction fuel with
  | zero => intro n h; exact absurd h (Nat.not_lt_zero n)
  | succ f ih =>
    intro n h d hd
    by_cases h10 : n < 10
    · simp only [natDigitsF, if_pos h10, List.mem_singleton] at hd
      omega
    · have hf : n / 10 < f := by omega
      simp only [natDigitsF, if_neg h10, List.mem_append, List.mem_singleton] at hd
      rcases hd with hd | hd
      · exact ih _ hf d hd
      · omega

theorem digitChar_inj : ∀ a < 10, ∀ b < 10,
    Char.ofNat (48 + a) = Char.ofNat (48 + b) → a = b := by decide

theorem mapDigits_inj : ∀ l1 l2 : List Nat, (∀ d ∈ l1, d < 10) → (∀ d ∈ l2, d < 10) →
    l1.map (fun d => Char.ofNat (48 + d)) = l2.map (fun d => Char.ofNat (48 + d)) →
    l1 = l2 := by
  intro l1
  induction l1 with
  | nil =>
    intro l2 _ _ h
    cases l2 with
    | nil => rfl
    | cons b l2' => simp at h
  | cons a l1' ih =>
    intro l2 h1 h2 h
    cases l2 with
    | nil => simp at h
    | cons b l2' =>
      simp only [List.map_cons, List.cons.injEq] at h
      have ha : a < 10 := h1 a (List.mem_cons_self _ _)
      have hb : b < 10 := h2 b (List.mem_cons_self _ _)
      have hab : a = b := digitChar_inj a ha b hb h.1
      subst hab
      rw [ih l2' (fun d hd => h1 d (List.mem_cons_of_mem _ hd))
        (fun d hd => h2 d (List.mem_cons_of_mem _ hd)) h.2]

theorem natNumeral_inj (m n : Nat) (h : natNumeral m = natNumeral n) : m = n := by
  unfold natNumeral at h
  have hl : (natDigits m).map (fun d => Char.ofNat (48 + d)) =
      (natDigits n).map (fun d => Char.ofNat (48 + d)) := congrArg String.data h
  have hd : natDigits m = natDigits n :=
    mapDigits_inj _ _ (natDigitsF_lt (m + 1) m (Nat.lt_succ_self m))
      (natDigitsF_lt (n + 1) n (Nat.lt_succ_self n)) hl
  have hv := congrArg digitsVal hd
  unfold natDigits at hv
  rw [natDigitsF_val (m + 1) m (Nat.lt_succ_self m),
    natDigitsF_val (n + 1) n (Nat.lt_succ_self n)] at hv
  exact hv

theorem natNumeral_ne (m n : Nat) (h : m ≠ n) : natNumeral m ≠ natNumeral n :=
  fun hc => h (natNumeral_inj m n hc)

theorem lookupEntry_none_of_forall (es : List (String × FNode)) (k : String)
    (h : ∀ q ∈ es, (q : String × FNode).1 ≠ k) : lookupEntry es k = none := by
  induction es with
  | nil => rfl
  | cons p rest ih =>
    obtain ⟨nm, nd⟩ := p
    have hnm : nm ≠ k := h (nm, nd) (List.mem_cons_self _ _)
    simp only [lookupEntry, if_neg hnm]
    exact ih (fun q hq => h q (List.mem_cons_of_mem _ hq))

theorem lookupEntry_append_of_none (xs ys : List (String × FNode)) (k : String)
    (h : lookupEntry xs k = none) : lookupEntry (xs ++ ys) k = lookupEntry ys k := by
  induction xs with
  | nil => rfl
  | cons p rest ih =>
    obtain ⟨nm, nd⟩ := p
    by_cases hk : nm = k
    · simp [lookupEntry, hk] at h
    · simp only [lookupEntry, if_neg hk] at h
      simp only [List.cons_append, lookupEntry, if_neg hk]
      exact ih h

theorem lookupEntry_append_of_some (xs ys : List (String × FNode)) (k : String) (v : FNode)
    (h : lookupEntry xs k = some v) : lookupEntry (xs ++ ys) k = some v := by
  induction xs with
  | nil => simp [lookupEntry] at h
  | cons p rest ih =>
    obtain ⟨nm, nd⟩ := p
    by_cases hk : nm = k
    · simp only [lookupEntry, if_pos hk] at h
      simp only [List.cons_append, lookupEntry, if_pos hk]
      exact h
    · simp only [lookupEntry, if_neg hk] at h
      simp only [List.cons_append, lookupEntry, if_neg hk]
      exact ih h

theorem eraseEntry_append_of_none (xs ys : List (String × FNode)) (k : String)
    (h : lookupEntry xs k = none) : eraseEntry (xs ++ ys) k = xs ++ eraseEntry ys k := by
  induction xs with
  | nil => rfl
  | cons p rest ih =>
    obtain ⟨nm, nd⟩ := p
    by_cases hk : nm = k
    · simp [lookupEntry, hk] at h
    · simp only [lookupEntry, if_neg hk] at h
      simp only [List.cons_append, eraseEntry, if_neg hk]
      exact congrArg (List.cons (nm, nd)) (ih h)

theorem hashRenameLoop_cons (tag : String) (i : Nat) (nm : String) (ns : List String)
    (dir : List (String × FNode)) :
    hashRenameLoop tag i (nm :: ns) dir =
      match lookupEntry dir nm with
      | some (FNode.file c) =>
        match hashRenameLoop tag (i + 1) ns (renameEntry dir nm (natNumeral i)) with
        | (.ok s, dir2) => (.ok (strBytes tag ++ toNeBytes i ++ c ++ s), dir2)
        | (.error e, dir2) => (.error e, dir2)
      | _ => (.error (tag ++ "/" ++ nm ++ " is unreadable"), dir) := rfl

theorem hashRenameLoop_safe (tag : String) (cs : List (String × List Nat)) :
    ∀ (i : Nat) (pre post : List (String × FNode)),
      namesSafeB i (cs.map Prod.fst) = true →
      (∀ q ∈ pre, ∃ k, k < i ∧ (q : String × FNode).1 = natNumeral k) →
      (∀ q ∈ post, ∃ k, k < i ∧ (q : String × FNode).1 = natNumeral k) →
      (∀ q ∈ pre, ∀ p ∈ cs, (q : String × FNode).1 ≠ (p : String × List Nat).1) →
      ∃ dirF,
        hashRenameLoop tag i (cs.map Prod.fst)
            (pre ++ (cs.map fun p => (p.1, FNode.file p.2)) ++ post) =
          (.ok (hashCases tag i (cs.map Prod.snd)), dirF) ∧
        dirF.length = pre.length + cs.length + post.length ∧
        casesRenamed dirF i (cs.map Prod.snd) ∧
        (∀ s : String, (∀ k, i ≤ k → k < i + cs.length → s ≠ natNumeral k) →
          lookupEntry dirF s = lookupEntry (pre ++ post) s) := by
  induction cs with
  | nil =>
    intro i pre post _ _ _ _
    refine ⟨pre ++ post, ?_, by simp, by simp [casesRenamed], fun s _ => rfl⟩
    simp [hashRenameLoop, hashCases]
  | cons hd rest ih =>
    obtain ⟨nm, c⟩ := hd
    intro i pre post hsafe hpre hpost hdisj
    simp only [List.map_cons]
    simp only [List.map_cons, namesSafeB, Bool.and_eq_true, List.all_eq_true] at hsafe
    obtain ⟨hs1, hs2⟩ := hsafe
    have hs1' : ∀ p ∈ rest, (p : String × List Nat).1 ≠ natNumeral i := by
      intro p hp
      have := hs1 p.1 (List.mem_map.mpr ⟨p, hp, rfl⟩)
      simpa using this
    have hpreMiss : lookupEntry pre nm = none :=
      lookupEntry_none_of_forall pre nm
        (fun q hq => hdisj q hq (nm, c) (List.mem_cons_self _ _))
    have hlook : lookupEntry
        (pre ++ ((nm, FNode.file c) :: rest.map fun p => (p.1, FNode.file p.2)) ++ post) nm
        = some (FNode.file c) := by
      rw [List.append_assoc, lookupEntry_append_of_none _ _ _ hpreMiss]
      simp [lookupEntry]
    have hpreN : ∀ j : Nat, i ≤ j → lookupEntry pre (natNumeral j) = none := by
      intro j hj
      refine lookupEntry_none_of_forall pre _ (fun q hq => ?_)
      obtain ⟨k, hk, he⟩ := hpre q hq
      rw [he]
      exact natNumeral_ne k j (by omega)
    have hpostN : ∀ j : Nat, i ≤ j → lookupEntry post (natNumeral j) = none := by
      intro j hj
      refine lookupEntry_none_of_forall post _ (fun q hq => ?_)
      obtain ⟨k, hk, he⟩ := hpost q hq
      rw [he]
      exact natNumeral_ne k j (by omega)
    have hrestN : lookupEntry (rest.map fun p => (p.1, FNode.file p.2)) (natNumeral i)
        = none := by
      refine lookupEntry_none_of_forall _ _ (fun q hq => ?_)
      obtain ⟨p, hp, rfl⟩ := List.mem_map.mp hq
      exact hs1' p hp
    by_cases heq : nm = natNumeral i
    · have hren : renameEntry
          (pre ++ ((nm, FNode.file c) :: rest.map fun p => (p.1, FNode.file p.2)) ++ post)
          nm (natNumeral i) =
          pre ++ ((nm, FNode.file c) :: rest.map fun p => (p.1, FNode.file p.2)) ++ post := by
        unfold renameEntry
        rw [if_pos heq]
      have hpre2 : ∀ q ∈ pre ++ [(nm, FNode.file c)],
          ∃ k, k < i + 1 ∧ (q : String × FNode).1 = natNumeral k := by
        intro q hq
        rcases List.mem_append.mp hq with h | h
        · obtain ⟨k, hk, he⟩ := hpre q h
          exact ⟨k, by omega, he⟩
        · obtain rfl : q = (nm, FNode.file c) := List.mem_singleton.mp h
          exact ⟨i, by omega, heq⟩
      have hpost2 : ∀ q ∈ post, ∃ k, k < i + 1 ∧ (q : String × FNode).1 = natNumeral k := by
        intro q hq
        obtain ⟨k, hk, he⟩ := hpost q hq
        exact ⟨k, by omega, he⟩
      have hdisj2 : ∀ q ∈ pre ++ [(nm, FNode.file c)], ∀ p ∈ rest,
          (q : String × FNode).1 ≠ (p : String × List Nat).1 := by
        intro q hq p hp
        rcases List.mem_append.mp hq with h | h
        · exact hdisj q h p (List.mem_cons_of_mem _ hp)
        · obtain rfl : q = (nm, FNode.file c) := List.mem_singleton.mp h
          intro hcon
          exact hs1' p hp (hcon.symm.trans heq)
      obtain ⟨dirF, hrun, hlen, hcr, hlk⟩ :=
        ih (i + 1) (pre ++ [(nm, FNode.file c)]) post hs2 hpre2 hpost2 hdisj2
      refine ⟨dirF, ?_, ?_, ?_, ?_⟩
      · have hr2 : hashRenameLoop tag (i + 1) (rest.map Prod.fst)
            (renameEntry
              (pre ++ ((nm, FNode.file c) :: rest.map fun p => (p.1, FNode.file p.2)) ++ post)
              nm (natNumeral i)) =
            (.ok (hashCases tag (i + 1) (rest.map Prod.snd)), dirF) := by
          rw [hren]
          have h0 := hrun
          simp only [List.append_assoc, List.cons_append, List.singleton_append] at h0 ⊢
          exact h0
        rw [hashRenameLoop_cons, hlook, hr2]
        rfl
      · simp only [List.length_append, List.length_cons, List.length_map,
          List.length_singleton, List.length_nil] at hlen ⊢
        omega
      · refine ⟨?_, hcr⟩
        have hlkn := hlk (natNumeral i) (fun k hk1 hk2 => natNumeral_ne i k (by omega))
        rw [hlkn, List.append_assoc, lookupEntry_append_of_none _ _ _ (hpreN i (Nat.le_refl i))]
        simp [lookupEntry, heq]
      · intro s hs
        have hsn : s ≠ nm := by
          rw [heq]
          exact hs i (Nat.le_refl i) (by simp only [List.length_cons]; omega)
        have hlks := hlk s
          (fun k hk1 hk2 => hs k (by omega) (by simp only [List.length_cons]; omega))
        rw [hlks]
        cases hx : lookupEntry pre s with
        | some v =>
          rw [lookupEntry_append_of_some _ _ _ _ (lookupEntry_append_of_some _ _ _ _ hx),
            lookupEntry_append_of_some _ _ _ _ hx]
        | none =>
          rw [List.append_assoc, lookupEntry_append_of_none _ _ _ hx,
            lookupEntry_append_of_none _ _ _ hx]
          simp [lookupEntry, Ne.symm hsn]
    · have her : eraseEntry
          (pre ++ ((nm, FNode.file c) :: rest.map fun p => (p.1, FNode.file p.2)) ++ post)
          nm =
          pre ++ ((rest.map fun p => (p.1, FNode.file p.2)) ++ post) := by
        rw [List.append_assoc, eraseEntry_append_of_none _ _ _ hpreMiss]
        simp [eraseEntry]
      have hdest : lookupEntry (pre ++ ((rest.map fun p => (p.1, FNode.file p.2)) ++ post))
          (natNumeral i) = none := by
        rw [lookupEntry_append_of_none _ _ _ (hpreN i (Nat.le_refl i)),
          lookupEntry_append_of_none _ _ _ hrestN]
        exact hpostN i (Nat.le_refl i)
      have hrm : renameEntry
          (pre ++ ((nm, FNode.file c) :: rest.map fun p => (p.1, FNode.file p.2)) ++ post)
          nm (natNumeral i) =
          pre ++ (rest.map fun p => (p.1, FNode.file p.2))
            ++ (post ++ [(natNumeral i, FNode.file c)]) := by
        unfold renameEntry
        rw [if_neg heq, hlook, her, hdest]
        simp [List.append_assoc]
      have hpre2 : ∀ q ∈ pre, ∃ k, k < i + 1 ∧ (q : String × FNode).1 = natNumeral k := by
        intro q hq
        obtain ⟨k, hk, he⟩ := hpre q hq
        exact ⟨k, by omega, he⟩
      have hpost2 : ∀ q ∈ post ++ [(natNumeral i, FNode.file c)],
          ∃ k, k < i + 1 ∧ (q : String × FNode).1 = natNumeral k := by
        intro q hq
        rcases List.mem_append.mp hq with h | h
        · obtain ⟨k, hk, he⟩ := hpost q h
          exact ⟨k, by omega, he⟩
        · obtain rfl : q = (natNumeral i, FNode.file c) := List.mem_singleton.mp h
          exact ⟨i, by omega, rfl⟩
      have hdisj2 : ∀ q ∈ pre, ∀ p ∈ rest,
          (q : String × FNode).1 ≠ (p : String × List Nat).1 :=
        fun q hq p hp => hdisj q hq p (List.mem_cons_of_mem _ hp)
      obtain ⟨dirF, hrun, hlen, hcr, hlk⟩ :=
        ih (i + 1) pre (post ++ [(natNumeral i, FNode.file c)]) hs2 hpre2 hpost2 hdisj2
      refine ⟨dirF, ?_, ?_, ?_, ?_⟩
      · have hr2 : hashRenameLoop tag (i + 1) (rest.map Prod.fst)
            (renameEntry
              (pre ++ ((nm, FNode.file c) :: rest.map fun p => (p.1, FNode.file p.2)) ++ post)
              nm (natNumeral i)) =
            (.ok (hashCases tag (i + 1) (rest.map Prod.snd)), dirF) := by
          rw [hrm]
          exact hrun
        rw [hashRenameLoop_cons, hlook, hr2]
        rfl
      · simp only [List.length_append, List.length_cons, List.length_map,
          List.length_singleton, List.length_nil] at hlen ⊢
        omega
      · refine ⟨?_, hcr⟩
        have hlkn := hlk (natNumeral i) (fun k hk1 hk2 => natNumeral_ne i k (by omega))
        rw [hlkn, lookupEntry_append_of_none _ _ _ (hpreN i (Nat.le_refl i)),
          lookupEntry_append_of_none _ _ _ (hpostN i (Nat.le_refl i))]
        simp [lookupEntry]
      · intro s hs
        have hsi : s ≠ natNumeral i :=
          hs i (Nat.le_refl i) (by simp only [List.length_cons]; omega)
        have hlks := hlk s
          (fun k hk1 hk2 => hs k (by omega) (by simp only [List.length_cons]; omega))
        rw [hlks]
        cases hx : lookupEntry pre s with
        | some v =>
          rw [lookupEntry_append_of_some _ _ _ _ hx, lookupEntry_append_of_some _ _ _ _ hx]
        | none =>
          rw [lookupEntry_append_of_none _ _ _ hx, lookupEntry_append_of_none _ _ _ hx,
            lookupEntry_append_ne _ _ _ _ hsi]

theorem hashCases_enumFrom (tag : String) (n : Nat) (cs : List (List Nat)) :
    hashCases tag n cs =
      ((cs.enumFrom n).map fun p => strBytes tag ++ toNeBytes p.1 ++ p.2).flatten := by
  induction cs generalizing n with
  | nil => rfl
  | cons c rest ih => simp [hashCases, List.enumFrom, ih, List.append_assoc]

theorem canonStream_eq_specStream (mc : List Nat) (ins crs : List (String × List Nat)) :
    canonStream mc ins crs = specStream mc (ins.map Prod.snd) (crs.map Prod.snd) := by
  simp [canonStream, specStream, hashCases_enumFrom, List.enum, List.append_assoc]

theorem registerValidate_of_scan (es : List (String × FNode)) (mc : List Nat)
    (ins crs : List (String × List Nat))
    (hscan : scanBase es = (.ok (), canonBase mc ins crs))
    (hmc : mc.length ≤ 256 * 1024)
    (hin : ∀ p ∈ ins, (p.2 : List Nat).length ≤ 1024)
    (hcr : ∀ p ∈ crs, (p.2 : List Nat).length ≤ 1024)
    (hsi : namesSafeB 0 (ins.map Prod.fst) = true)
    (hsc : namesSafeB 0 (crs.map Prod.fst) = true) :
    ∃ din dcr,
      registerValidate es =
        (.ok (canonStream mc ins crs),
         setEntry (setEntry (canonBase mc ins crs) "input" (FNode.dir din)) "crash"
           (FNode.dir dcr)) ∧
      din.length = ins.length ∧ casesRenamed din 0 (ins.map Prod.snd) ∧
      dcr.length = crs.length ∧ casesRenamed dcr 0 (crs.map Prod.snd) := by
  obtain ⟨din, hrunI, hlenI, hrenI, hlkI⟩ :=
    hashRenameLoop_safe "input" ins 0 [] []
      hsi (by simp) (by simp) (by simp)
  obtain ⟨dcr, hrunC, hlenC, hrenC, hlkC⟩ :=
    hashRenameLoop_safe "crash" crs 0 [] []
      hsc (by simp) (by simp) (by simp)
  simp only [List.nil_append, List.append_nil, List.length_nil] at hrunI hrunC hlenI hlenC
  refine ⟨din, dcr, ?_, by omega, hrenI, by omega, hrenC⟩
  have hmc' : ¬ (mc.length > 256 * 1024) := by omega
  unfold registerValidate
  rw [hscan]
  simp only [canonBase, lookupEntry, setEntry]
  simp [hmc', checkCases_map_ok _ _ hin, checkCases_map_ok _ _ hcr, hrunI, hrunC, canonStream]

theorem registerBase_ok_facts (sha3 : List Nat → List Nat) (asset : List Nat)
    (orc : InstallOracle) (reg : RegState) (es : List (String × FNode)) (h : String) (e : Bool)
    (hres : (registerBase sha3 asset orc reg es).res = .ok (h, e)) :
    e = (regLookup reg h).isSome ∧
      (regLookup (registerBase sha3 asset orc reg es).reg h).isSome = true := by
  unfold registerBase at hres ⊢
  rcases hval : registerValidate es with ⟨r, es'⟩
  simp only [hval] at hres ⊢
  cases r with
  | error msg => simp at hres
  | ok stream =>
    by_cases hex : (regLookup reg (hexEncode (sha3 stream))).isSome = true
    · simp only [hex, if_true, if_pos] at hres ⊢
      simp only [Except.ok.injEq, Prod.mk.injEq] at hres
      obtain ⟨rfl, rfl⟩ := hres
      simp [hex]
    · simp only [hex, if_false, if_neg] at hres ⊢
      by_cases hmk : orc.mkdirOk = true
      · simp only [hmk, Bool.not_true, Bool.false_eq_true, if_false] at hres ⊢
        rcases hinst : installPacket asset orc (reg ++ [(hexEncode (sha3 stream), [])])
            (hexEncode (sha3 stream)) es' with ⟨ir, reg2⟩
        rw [hinst] at hres
        cases ir with
        | error msg => simp at hres
        | ok u =>
          simp only [Except.ok.injEq, Prod.mk.injEq] at hres
          obtain ⟨rfl, rfl⟩ := hres
          constructor
          · simp [Bool.not_eq_true] at hex
            simp [hex]
          · have hkey := installPacket_reg_isSome asset orc
              (reg ++ [(hexEncode (sha3 stream), [])]) (hexEncode (sha3 stream))
              (hexEncode (sha3 stream)) es'
            rw [hinst] at hkey
            simp only [hkey, regLookup_append_isSome]
      · simp only [Bool.not_eq_true] at hmk
        simp [hmk] at hres

theorem register_ok_facts (sha3 : List Nat → List Nat) (asset : List Nat)
    (orc : InstallOracle) (reg : RegState) (src : List (String × FNode)) (h : String) (e : Bool)
    (hres : (register sha3 asset orc reg src).res = .ok (h, e)) :
    e = (regLookup reg h).isSome ∧
      (regLookup (register sha3 asset orc reg src).reg h).isSome = true := by
  rcases src with _ | ⟨⟨nm, nd⟩, rest⟩
  · exact registerBase_ok_facts _ _ _ _ _ _ _ hres
  · cases nd with
    | file c =>
      cases rest with
      | nil => exact registerBase_ok_facts _ _ _ _ _ _ _ hres
      | cons p2 rest2 => exact registerBase_ok_facts _ _ _ _ _ _ _ hres
    | dir inner =>
      cases rest with
      | nil => exact registerBase_ok_facts _ _ _ _ _ _ _ hres
      | cons p2 rest2 => exact registerBase_ok_facts _ _ _ _ _ _ _ hres

/-- C1 (amended): for every valid submission directory in which no test
file under `input/` or `crash/` bears the decimal name of an
earlier-listed sibling's index, the packet ID computed by `register` is
the hex encoding of SHA3-256 over exactly the byte stream described by the
specification: the literal "program" and the bytes of main.c, then for
each input test in listing order the literal "input", the native-endian
machine-word index and the test bytes, then the same for the crash tests
with the literal "crash".  Without that restriction the claim fails: the
per-index `fs::rename` silently overwrites such a sibling before it is
hashed (see the counterexample). -/
theorem c1_register_hash_stream (sha3 : List Nat → List Nat) (asset : List Nat)
    (reg : RegState) (mc : List Nat) (ins crs : List (String × List Nat))
    (hmc : mc.length ≤ 256 * 1024)
    (hin : ∀ p ∈ ins, (p.2 : List Nat).length ≤ 1024)
    (hcr : ∀ p ∈ crs, (p.2 : List Nat).length ≤ 1024)
    (hsi : namesSafeB 0 (ins.map Prod.fst) = true)
    (hsc : namesSafeB 0 (crs.map Prod.fst) = true) :
    ∃ e, (register sha3 asset ioAllOk reg (canonBase mc ins crs)).res =
      .ok (hexEncode (sha3 (specStream mc (ins.map Prod.snd) (crs.map Prod.snd))), e) := by
  obtain ⟨din, dcr, hval, -, -, -, -⟩ := registerValidate_of_scan (canonBase mc ins crs)
    mc ins crs (scanBase_canon mc ins crs) hmc hin hcr hsi hsc
  rw [canonStream_eq_specStream] at hval
  have hred : register sha3 asset ioAllOk reg (canonBase mc ins crs) =
      registerBase sha3 asset ioAllOk reg (canonBase mc ins crs) := rfl
  rw [hred]
  unfold registerBase
  rw [hval]
  by_cases hex : (regLookup reg
      (hexEncode (sha3 (specStream mc (ins.map Prod.snd) (crs.map Prod.snd))))).isSome = true
  · exact ⟨true, by simp [hex]⟩
  · refine ⟨false, ?_⟩
    have hmk : (!ioAllOk.mkdirOk) = false := rfl
    simp only [hex, hmk, if_false, Bool.false_eq_true]
    rw [installPacket_allOk]

/-- Witness for C1 at a concrete submission. -/
theorem c1_witness :
    ∃ e, (register sha3c [] ioAllOk [] (canonBase [7] [("a", [1])] [])).res =
      .ok (hexEncode (sha3c (specStream [7] ([("a", [1])].map Prod.snd)
        (([] : List (String × List Nat)).map Prod.snd))), e) :=
  c1_register_hash_stream sha3c [] [] [7] [("a", [1])] []
    (by simp) (by simp) (by simp) (by rfl) (by rfl)

/-- Counterexample to C1 as stated: `input/` listing the files `x` then
`0`.  Hashing `x` (index 0) renames it to `0`, silently overwriting the
sibling test file `0`; the loop then hashes the path `0` — now holding
`x`'s bytes — a second time.  `register` succeeds, but the packet ID is
the hash of a stream holding `x`'s content twice (byte 65), not of the
specified stream with test `0`'s content (byte 66); the two streams hash
differently (here under the identity compression function). -/
theorem c1_counterexample :
    (register (fun l => l) [] ioAllOk []
        [("main.c", FNode.file []),
         ("input", FNode.dir [("x", FNode.file [65]), ("0", FNode.file [66])]),
         ("crash", FNode.dir [])]).res =
      .ok (hexEncode (specStream [] [[65], [65]] []), false) ∧
    hexEncode (specStream [] [[65], [65]] []) ≠
      hexEncode (specStream [] [[65], [66]] []) := by
  refine ⟨rfl, by decide⟩

/-- C2: for two successful `register` calls run against the registry in
sequence (the linearization enforced by the registry-wide write lock) that
return the same hash, the first call's `existed` flag reports whether
`<root>/H/` already existed, and at most one of the two calls can report
`existed = false`. -/
theorem c2_register_dedup (sha3 : List Nat → List Nat) (asset : List Nat)
    (orc1 orc2 : InstallOracle) (reg : RegState) (src1 src2 : List (String × FNode))
    (h : String) (e1 e2 : Bool)
    (h1 : (register sha3 asset orc1 reg src1).res = .ok (h, e1))
    (h2 : (register sha3 asset orc2 (register sha3 asset orc1 reg src1).reg src2).res =
      .ok (h, e2)) :
    e1 = (regLookup reg h).isSome ∧ ¬(e1 = false ∧ e2 = false) := by
  obtain ⟨he1, hp1⟩ := register_ok_facts _ _ _ _ _ _ _ h1
  obtain ⟨he2, _⟩ := register_ok_facts _ _ _ _ _ _ _ h2
  refine ⟨he1, ?_⟩
  rintro ⟨hf1, hf2⟩
  rw [he2, hp1] at hf2
  exact Bool.noConfusion hf2

/-- Witness for C2: a concrete pair of calls on the same submission; the
first observes `existed = false`, the second `existed = true`. -/
theorem c2_witness :
    false = (regLookup [] "").isSome ∧ ¬(false = false ∧ true = false) :=
  c2_register_dedup sha3c [] ioAllOk ioAllOk [] (canonBase [] [] []) (canonBase [] [] [])
    "" false true (by rfl) (by rfl)

theorem registerValidate_ok_populated (es : List (String × FNode)) (stream : List Nat)
    (es3 : List (String × FNode)) (h : registerValidate es = (.ok stream, es3)) :
    (lookupEntry es3 "main.c").isSome = true ∧ (lookupEntry es3 "input").isSome = true ∧
      (lookupEntry es3 "crash").isSome = true := by
  unfold registerValidate at h
  rcases hscan : scanBase es with ⟨r1, es1⟩
  rw [hscan] at h
  cases r1 with
  | error msg => simp at h
  | ok u =>
    cases u
    simp only [] at h
    rcases hmain : lookupEntry es1 "main.c" with _ | nd
    · rw [hmain] at h; simp at h
    · rw [hmain] at h
      cases nd with
      | dir l => simp at h
      | file mc =>
        simp only [] at h
        by_cases hsz : mc.length > 256 * 1024
        · rw [if_pos hsz] at h; simp at h
        · rw [if_neg hsz] at h
          rcases hinput : lookupEntry es1 "input" with _ | nd2
          · rw [hinput] at h; simp at h
          · rw [hinput] at h
            cases nd2 with
            | file c => simp at h
            | dir ics =>
              simp only [] at h
              rcases hchk : checkCases "input" ics with e1 | inNames
              · rw [hchk] at h; simp at h
              · rw [hchk] at h
                simp only [] at h
                rcases hloop : hashRenameLoop "input" 0 inNames ics with ⟨r2, ics2⟩
                rw [hloop] at h
                cases r2 with
                | error e => simp at h
                | ok inStream =>
                  simp only [] at h
                  rcases hcrash : lookupEntry
                      (setEntry es1 "input" (FNode.dir ics2)) "crash" with _ | nd3
                  · rw [hcrash] at h; simp at h
                  · rw [hcrash] at h
                    cases nd3 with
                    | file c2 => simp at h
                    | dir ccs =>
                      simp only [] at h
                      rcases hchk2 : checkCases "crash" ccs with e2 | crNames
                      · rw [hchk2] at h; simp at h
                      · rw [hchk2] at h
                        simp only [] at h
                        rcases hloop2 : hashRenameLoop "crash" 0 crNames ccs with ⟨r3, ccs2⟩
                        rw [hloop2] at h
                        cases r3 with
                        | error e => simp at h
                        | ok crStream =>
                          simp only [Prod.mk.injEq] at h
                          obtain ⟨-, rfl⟩ := h
                          refine ⟨?_, ?_, ?_⟩
                          · rw [lookupEntry_setEntry_ne _ _ _ _ (by decide),
                              lookupEntry_setEntry_ne _ _ _ _ (by decide)]
                            simp [hmain]
                          · rw [lookupEntry_setEntry_ne _ _ _ _ (by decide),
                              lookupEntry_setEntry_isSome]
                            simp [hinput]
                          · rw [lookupEntry_setEntry_isSome]
                            simp [hcrash]

theorem registerBase_atomic_ioAllOk (sha3 : List Nat → List Nat) (asset : List Nat)
    (reg : RegState) (es : List (String × FNode)) :
    (registerBase sha3 asset ioAllOk reg es).reg = reg ∨
      ∃ h pkt, (registerBase sha3 asset ioAllOk reg es).res = .ok (h, false) ∧
        regLookup reg h = none ∧
        (registerBase sha3 asset ioAllOk reg es).reg = reg ++ [(h, pkt)] ∧
        fullyPopulated pkt = true := by
  unfold registerBase
  rcases hval : registerValidate es with ⟨r, es'⟩
  cases r with
  | error msg => left; rfl
  | ok stream =>
    by_cases hex : (regLookup reg (hexEncode (sha3 stream))).isSome = true
    · left; simp [hex]
    · right
      have hnone : regLookup reg (hexEncode (sha3 stream)) = none :=
        Option.not_isSome_iff_eq_none.mp hex
      have hmk : (!ioAllOk.mkdirOk) = false := rfl
      refine ⟨hexEncode (sha3 stream),
        writeEntry (writeEntry es' "interface.h" (FNode.file asset)) "output" (FNode.dir []),
        ?_, hnone, ?_, ?_⟩
      · simp only [hex, hmk, if_false, Bool.false_eq_true]
        rw [installPacket_allOk]
      · simp only [hex, hmk, if_false, Bool.false_eq_true]
        rw [installPacket_allOk]
        exact regSet_append reg _ [] _ hnone
      · obtain ⟨hm, hi, hc⟩ := registerValidate_ok_populated es stream es' hval
        have hmm : lookupEntry
            (writeEntry (writeEntry es' "interface.h" (FNode.file asset)) "output"
              (FNode.dir [])) "main.c" = lookupEntry es' "main.c" := by
          rw [lookupEntry_writeEntry_ne _ _ _ _ (by decide),
            lookupEntry_writeEntry_ne _ _ _ _ (by decide)]
        have hin2 : lookupEntry
            (writeEntry (writeEntry es' "interface.h" (FNode.file asset)) "output"
              (FNode.dir [])) "input" = lookupEntry es' "input" := by
          rw [lookupEntry_writeEntry_ne _ _ _ _ (by decide),
            lookupEntry_writeEntry_ne _ _ _ _ (by decide)]
        have hcr2 : lookupEntry
            (writeEntry (writeEntry es' "interface.h" (FNode.file asset)) "output"
              (FNode.dir [])) "crash" = lookupEntry es' "crash" := by
          rw [lookupEntry_writeEntry_ne _ _ _ _ (by decide),
            lookupEntry_writeEntry_ne _ _ _ _ (by decide)]
        have hif : lookupEntry
            (writeEntry (writeEntry es' "interface.h" (FNode.file asset)) "output"
              (FNode.dir [])) "interface.h" = some (FNode.file asset) := by
          rw [lookupEntry_writeEntry_ne _ _ _ _ (by decide), lookupEntry_writeEntry_self]
        have hout : lookupEntry
            (writeEntry (writeEntry es' "interface.h" (FNode.file asset)) "output"
              (FNode.dir [])) "output" = some (FNode.dir []) :=
          lookupEntry_writeEntry_self _ _ _
        simp [fullyPopulated, hmm, hin2, hcr2, hif, hout, hm, hi, hc]

/-- C3 (amended): packet installation is atomic at directory granularity
only in the absence of I/O failures during installation: when every
filesystem call succeeds, a `register` call either leaves the registry root
untouched (validation failure or an already-existing packet) or installs a
fully populated `<root>/H/` with `main.c`, `interface.h`, `input/`,
`crash/` and `output/`.  When an installation I/O call fails partway, a
partially populated or empty `<root>/H/` is left behind (see the
counterexample). -/
theorem c3_install_atomicity (sha3 : List Nat → List Nat) (asset : List Nat)
    (reg : RegState) (src : List (String × FNode)) :
    (register sha3 asset ioAllOk reg src).reg = reg ∨
      ∃ h pkt, (register sha3 asset ioAllOk reg src).res = .ok (h, false) ∧
        regLookup reg h = none ∧
        (register sha3 asset ioAllOk reg src).reg = reg ++ [(h, pkt)] ∧
        fullyPopulated pkt = true := by
  rcases src with _ | ⟨⟨nm, nd⟩, rest⟩
  · exact registerBase_atomic_ioAllOk _ _ _ _
  · cases nd with
    | file c =>
      cases rest with
      | nil => exact registerBase_atomic_ioAllOk _ _ _ _
      | cons p2 rest2 => exact registerBase_atomic_ioAllOk _ _ _ _
    | dir inner =>
      cases rest with
      | nil => exact registerBase_atomic_ioAllOk _ _ _ _
      | cons p2 rest2 => exact registerBase_atomic_ioAllOk _ _ _ _

/-- Counterexample to C3 as stated: when `copy_dir_recursive` fails before
copying anything, `register` returns an error while `<root>/H/` exists and
is empty — neither fully populated nor absent.  The code performs no
rollback on the error path. -/
theorem c3_counterexample :
    (register sha3c [] ⟨true, some 0, true, true⟩ [] (canonBase [] [] [])).res =
      .error "copy failed" ∧
    regLookup (register sha3c [] ⟨true, some 0, true, true⟩ [] (canonBase [] [] [])).reg "" =
      some [] ∧
    fullyPopulated [] = false :=
  ⟨rfl, rfl, rfl⟩

theorem scanBase_cons (nm : String) (nd : FNode) (rest : List (String × FNode)) :
    scanBase ((nm, nd) :: rest) =
      if nm = "main.c" ∨ nm = "interface.h" ∨ nm = "input" ∨ nm = "crash" then
        ((scanBase rest).1, (nm, nd) :: (scanBase rest).2)
      else if strStartsWith nm "README" && nd.isFile then scanBase rest
      else if strStartsWith nm "output" && nd.isDir then scanBase rest
      else (.error ("unrecognized item: " ++ nm), (nm, nd) :: rest) := rfl

theorem scanBase_ok_iff (es : List (String × FNode)) :
    ((scanBase es).1 = .ok ()) ↔ (∀ p ∈ es, permittedEntry p.1 p.2 = true) := by
  induction es with
  | nil => simp [scanBase]
  | cons p rest ih =>
    obtain ⟨nm, nd⟩ := p
    rw [scanBase_cons]
    by_cases h1 : nm = "main.c" ∨ nm = "interface.h" ∨ nm = "input" ∨ nm = "crash"
    · have hperm : permittedEntry nm nd = true := by
        rcases h1 with rfl | rfl | rfl | rfl <;> simp [permittedEntry]
      rw [if_pos h1]
      simp [ih, hperm]
    · rw [if_neg h1]
      by_cases h2 : (strStartsWith nm "README" && nd.isFile) = true
      · have hperm : permittedEntry nm nd = true := by simp [permittedEntry, h2]
        rw [if_pos h2]
        simp [ih, hperm]
      · rw [if_neg h2]
        by_cases h3 : (strStartsWith nm "output" && nd.isDir) = true
        · have hperm : permittedEntry nm nd = true := by simp [permittedEntry, h3]
          rw [if_pos h3]
          simp [ih, hperm]
        · rw [if_neg h3]
          push_neg at h1
          obtain ⟨e1, e2, e3, e4⟩ := h1
          simp only [Bool.not_eq_true] at h2 h3
          have hperm : permittedEntry nm nd = false := by
            simp [permittedEntry, h2, h3, e1, e2, e3, e4]
          simp [hperm]

theorem scanBase_ok_filter (es : List (String × FNode)) (h : (scanBase es).1 = .ok ()) :
    (scanBase es).2 = es.filter fun p =>
      !(strStartsWith p.1 "README" && p.2.isFile) && !(strStartsWith p.1 "output" && p.2.isDir) := by
  induction es with
  | nil => simp [scanBase]
  | cons p rest ih =>
    obtain ⟨nm, nd⟩ := p
    rw [scanBase_cons] at h ⊢
    by_cases h1 : nm = "main.c" ∨ nm = "interface.h" ∨ nm = "input" ∨ nm = "crash"
    · rw [if_pos h1] at h ⊢
      have hkeep : (!(strStartsWith nm "README" && nd.isFile) &&
          !(strStartsWith nm "output" && nd.isDir)) = true := by
        rcases h1 with rfl | rfl | rfl | rfl <;> cases nd <;> rfl
      simp only [List.filter_cons, hkeep, if_true]
      exact congrArg (List.cons (nm, nd)) (ih h)
    · rw [if_neg h1] at h ⊢
      by_cases h2 : (strStartsWith nm "README" && nd.isFile) = true
      · rw [if_pos h2] at h ⊢
        have hdrop : (!(strStartsWith nm "README" && nd.isFile) &&
            !(strStartsWith nm "output" && nd.isDir)) = false := by simp [h2]
        simp only [List.filter_cons, hdrop, Bool.false_eq_true, if_false]
        exact ih h
      · rw [if_neg h2] at h ⊢
        by_cases h3 : (strStartsWith nm "output" && nd.isDir) = true
        · rw [if_pos h3] at h ⊢
          have hdrop : (!(strStartsWith nm "README" && nd.isFile) &&
              !(strStartsWith nm "output" && nd.isDir)) = false := by simp [h3]
          simp only [List.filter_cons, hdrop, Bool.false_eq_true, if_false]
          exact ih h
        · rw [if_neg h3] at h
          exact absurd h (by simp)

theorem scanBase_error_register (sha3 : List Nat → List Nat) (asset : List Nat)
    (orc : InstallOracle) (reg : RegState) (es : List (String × FNode)) (e : String)
    (h : (scanBase es).1 = .error e) :
    (registerBase sha3 asset orc reg es).res = .error e := by
  unfold registerBase registerValidate
  rcases hscan : scanBase es with ⟨r1, es1⟩
  rw [hscan] at h
  cases r1 with
  | error msg => simp at h; subst h; rfl
  | ok u => simp at h

/-- C6 (amended): during the validation of the submission base the only
permitted entry names are exactly `main.c`, `interface.h`, `input`,
`crash`, anything starting with `README` that is a regular file, and
anything starting with `output` that is a directory; any other name makes
`register` fail with the `unrecognized item` error.  Both the `README*`
files and the `output*` directories are removed from the base — the
`README*` files are deleted, not kept in the installed packet. -/
theorem c6_validation_names (sha3 : List Nat → List Nat) (asset : List Nat)
    (orc : InstallOracle) (reg : RegState) (es : List (String × FNode)) :
    (((scanBase es).1 = .ok ()) ↔ ∀ p ∈ es, permittedEntry p.1 p.2 = true) ∧
    (((scanBase es).1 = .ok ()) → (scanBase es).2 = es.filter fun p =>
      !(strStartsWith p.1 "README" && p.2.isFile) &&
        !(strStartsWith p.1 "output" && p.2.isDir)) ∧
    (∀ e, (scanBase es).1 = .error e → (registerBase sha3 asset orc reg es).res = .error e) :=
  ⟨scanBase_ok_iff es, scanBase_ok_filter es,
    fun e he => scanBase_error_register sha3 asset orc reg es e he⟩

/-- Witness for C6: a base with an entry named `evil` makes `register`
fail with the `unrecognized item` error. -/
theorem c6_witness :
    (registerBase sha3c [] ioAllOk [] [("evil", FNode.file [1])]).res =
      .error "unrecognized item: evil" :=
  (c6_validation_names sha3c [] ioAllOk [] [("evil", FNode.file [1])]).2.2
    "unrecognized item: evil" (by rfl)

/-- Counterexample to C6 as stated: a `README` file in the base is deleted
during validation, not kept — after a successful `register`, neither the
caller's base nor the installed packet contains it. -/
theorem c6_counterexample :
    (register sha3c [] ioAllOk []
        [("README", FNode.file [65]), ("main.c", FNode.file []),
         ("input", FNode.dir []), ("crash", FNode.dir [])]).res = .ok ("", false) ∧
    lookupEntry (register sha3c [] ioAllOk []
        [("README", FNode.file [65]), ("main.c", FNode.file []),
         ("input", FNode.dir []), ("crash", FNode.dir [])]).src "README" = none ∧
    (regLookup (register sha3c [] ioAllOk []
        [("README", FNode.file [65]), ("main.c", FNode.file []),
         ("input", FNode.dir []), ("crash", FNode.dir [])]).reg "").isSome = true ∧
    lookupEntry ((regLookup (register sha3c [] ioAllOk []
        [("README", FNode.file [65]), ("main.c", FNode.file []),
         ("input", FNode.dir []), ("crash", FNode.dir [])]).reg "").getD []) "README" = none :=
  ⟨rfl, rfl, rfl, rfl⟩

/-- C5 (amended): `analyze` runs exactly four stages — baseline, coverage,
fuzzing, symbolic — in that order, threading the state through each; the
hybrid (SymCC) stage defined in the sources is not invoked.  The four stage
results are aggregated into the returned `AnalysisResult` whatever their
contents (so a stage result with `completed = false` does not propagate),
and a failure from any stage propagates as the failure of `analyze`. -/
theorem c5_analyze_four_stages (σ ε : Type)
    (rB : σ → Except ε (ResultBaseline × σ)) (rG : σ → Except ε (ResultGcov × σ))
    (rA : σ → Except ε (ResultAFLpp × σ)) (rK : σ → Except ε (ResultKLEE × σ))
    (s s1 s2 s3 s4 : σ) (rb : ResultBaseline) (rg : ResultGcov) (ra : ResultAFLpp)
    (rk : ResultKLEE) (e : ε) :
    (rB s = .ok (rb, s1) → rG s1 = .ok (rg, s2) → rA s2 = .ok (ra, s3) →
      rK s3 = .ok (rk, s4) →
      analyze rB rG rA rK s = .ok (⟨rb, rg, ra, rk⟩, s4)) ∧
    (rB s = .error e → analyze rB rG rA rK s = .error e) ∧
    (rB s = .ok (rb, s1) → rG s1 = .error e → analyze rB rG rA rK s = .error e) ∧
    (rB s = .ok (rb, s1) → rG s1 = .ok (rg, s2) → rA s2 = .error e →
      analyze rB rG rA rK s = .error e) ∧
    (rB s = .ok (rb, s1) → rG s1 = .ok (rg, s2) → rA s2 = .ok (ra, s3) →
      rK s3 = .error e → analyze rB rG rA rK s = .error e) := by
  refine ⟨?_, ?_, ?_, ?_, ?_⟩ <;> intros <;> simp_all [analyze]

/-- Witness for C5 at concrete stage runners over a counter state. -/
theorem c5_witness :
    analyze (fun n => .ok (⟨true, 1, 0, 1, 0⟩, n + 1))
        (fun n => .ok (⟨true, 2, 2⟩, n + 1))
        (fun n => .ok (⟨true, 0⟩, n + 1))
        (fun n => .ok ((⟨true, 0⟩ : ResultKLEE), n + 1)) (0 : Nat) =
      (.ok (⟨⟨true, 1, 0, 1, 0⟩, ⟨true, 2, 2⟩, ⟨true, 0⟩, ⟨true, 0⟩⟩, 4) :
        Except String (AnalysisResult × Nat)) :=
  (c5_analyze_four_stages Nat String
      (fun n => .ok (⟨true, 1, 0, 1, 0⟩, n + 1))
      (fun n => .ok (⟨true, 2, 2⟩, n + 1))
      (fun n => .ok (⟨true, 0⟩, n + 1))
      (fun n => .ok (⟨true, 0⟩, n + 1))
      0 1 2 3 4 ⟨true, 1, 0, 1, 0⟩ ⟨true, 2, 2⟩ ⟨true, 0⟩ ⟨true, 0⟩ "e").1 rfl rfl rfl rfl

/-- Counterexample to C5 as stated: instrumenting the stage runners to
record the stage names shows that `analyze` runs exactly the four stages
baseline, gcov (coverage), AFL++ (fuzzing) and KLEE (symbolic), in that
order; no fifth hybrid (SymCC) stage is run and the aggregate holds four
stage results. -/
theorem c5_counterexample :
    analyze (traceStage "baseline" (⟨true, 1, 0, 1, 0⟩ : ResultBaseline))
        (traceStage "gcov" (⟨true, 2, 2⟩ : ResultGcov))
        (traceStage "aflpp" (⟨true, 0⟩ : ResultAFLpp))
        (traceStage "klee" (⟨true, 0⟩ : ResultKLEE)) [] =
      .ok (⟨⟨true, 1, 0, 1, 0⟩, ⟨true, 2, 2⟩, ⟨true, 0⟩, ⟨true, 0⟩⟩,
        ["baseline", "gcov", "aflpp", "klee"]) ∧
    "symcc" ∉ ["baseline", "gcov", "aflpp", "klee"] ∧
    "hybrid" ∉ ["baseline", "gcov", "aflpp", "klee"] :=
  ⟨rfl, by decide, by decide⟩

theorem contains_filter_ne (l : List String) (e : String) :
    ((l.filter fun n => n != e).contains e) = false := by
  induction l with
  | nil => rfl
  | cons a rest ih =>
    by_cases h : a = e
    · subst h
      simp [List.filter_cons, ih]
    · simp [List.filter_cons, h, ih]
      exact Ne.symm h

/-- C7: every `sandbox` call runs the command with networking disabled, tty
enabled and console output discarded, substitutes the 60-second default when
no timeout is given, returns one of Success, Failure or Timeout, and on
every exit path (success, nonzero exit, timeout, create-warning, or any
error during start/follow/wait) removes the ephemeral container, so that
when no container of that name pre-existed, no container named
`<tag>-ephemeral-<driver_name>` exists after the call returns. -/
theorem c7_sandbox_contract (tag drvName : String) (timeout : Option Nat)
    (orc : DockOracle) (st : List String) :
    (st.contains (ephemeralName tag drvName) = false →
      (sandboxModel tag drvName timeout orc st).containers.contains
        (ephemeralName tag drvName) = false) ∧
    (∀ cfg, (sandboxModel tag drvName timeout orc st).created = some cfg →
      cfg.net = false ∧ cfg.tty = true ∧ cfg.console = false ∧
        cfg.timeout = some (timeout.getD 60)) ∧
    (∀ s, (sandboxModel tag drvName timeout orc st).res = .ok s →
      s = .success ∨ s = .failure ∨ s = .timeout) := by
  have hrm : ∀ l e, ((removedState l e).contains e) = false := fun l e =>
    contains_filter_ne (l ++ [e]) e
  refine ⟨?_, ?_, ?_⟩
  · intro hpre
    unfold sandboxModel runModel
    repeat' split
    all_goals first
      | exact hpre
      | exact hrm _ _
  · intro cfg hcfg
    unfold sandboxModel runModel at hcfg
    repeat' split at hcfg
    all_goals
      first
        | exact Option.noConfusion hcfg
        | (obtain rfl := Option.some.inj hcfg; exact ⟨rfl, rfl, rfl, rfl⟩)
  · intro s _
    cases s
    · exact Or.inl rfl
    · exact Or.inr (Or.inl rfl)
    · exact Or.inr (Or.inr rfl)

/-- Witness for C7 at a concrete successful sandbox run. -/
theorem c7_witness :
    (sandboxModel "gcov" "worker-0" none ⟨true, true, false, true, .ok .success, true⟩
        []).containers.contains (ephemeralName "gcov" "worker-0") = false :=
  (c7_sandbox_contract "gcov" "worker-0" none
      ⟨true, true, false, true, .ok .success, true⟩ []).1 rfl

theorem registerValidate_error_res (sha3 : List Nat → List Nat) (asset : List Nat)
    (orc : InstallOracle) (reg : RegState) (es : List (String × FNode)) (e : String)
    (h : (registerValidate es).1 = .error e) :
    (registerBase sha3 asset orc reg es).res = .error e := by
  unfold registerBase
  rcases hval : registerValidate es with ⟨r, es'⟩
  rw [hval] at h
  cases r with
  | error msg =>
    simp only [] at h
    simp only [Except.error.injEq] at h
    subst h
    rfl
  | ok u => simp at h

theorem register_canon_isOk (sha3 : List Nat → List Nat) (asset : List Nat)
    (reg : RegState) (mc : List Nat) (ins crs : List (String × List Nat))
    (hmc : mc.length ≤ 256 * 1024)
    (hin : ∀ p ∈ ins, (p.2 : List Nat).length ≤ 1024)
    (hcr : ∀ p ∈ crs, (p.2 : List Nat).length ≤ 1024)
    (hsi : namesSafeB 0 (ins.map Prod.fst) = true)
    (hsc : namesSafeB 0 (crs.map Prod.fst) = true) :
    ∃ p, (register sha3 asset ioAllOk reg (canonBase mc ins crs)).res = .ok p := by
  obtain ⟨din, dcr, hval, -, -, -, -⟩ := registerValidate_of_scan (canonBase mc ins crs)
    mc ins crs (scanBase_canon mc ins crs) hmc hin hcr hsi hsc
  have hred : register sha3 asset ioAllOk reg (canonBase mc ins crs) =
      registerBase sha3 asset ioAllOk reg (canonBase mc ins crs) := rfl
  rw [hred]
  unfold registerBase
  rw [hval]
  by_cases hex : (regLookup reg (hexEncode (sha3 (canonStream mc ins crs)))).isSome = true
  · refine ⟨(hexEncode (sha3 (canonStream mc ins crs)), true), ?_⟩
    simp [hex]
  · refine ⟨(hexEncode (sha3 (canonStream mc ins crs)), false), ?_⟩
    have hmk : (!ioAllOk.mkdirOk) = false := rfl
    simp only [hex, hmk, if_false, Bool.false_eq_true]
    rw [installPacket_allOk]

theorem registerValidate_canon_mainTooBig (mc : List Nat) (ins crs : List (String × List Nat))
    (h : mc.length > 256 * 1024) :
    (registerValidate (canonBase mc ins crs)).1 = .error "main.c is too big" := by
  unfold registerValidate
  rw [scanBase_canon]
  simp only [canonBase, lookupEntry]
  simp [h]

theorem registerValidate_canon_badInput (mc : List Nat) (ins crs : List (String × List Nat))
    (hmc : mc.length ≤ 256 * 1024) (e : String)
    (hchk : checkCases "input" (ins.map fun p => (p.1, FNode.file p.2)) = .error e) :
    (registerValidate (canonBase mc ins crs)).1 = .error e := by
  have hmc' : ¬ (mc.length > 256 * 1024) := by omega
  unfold registerValidate
  rw [scanBase_canon]
  simp only [canonBase, lookupEntry]
  simp [hmc', hchk]

theorem registerValidate_canon_badCrash (mc : List Nat) (crs : List (String × List Nat))
    (hmc : mc.length ≤ 256 * 1024) (e : String)
    (hchk : checkCases "crash" (crs.map fun p => (p.1, FNode.file p.2)) = .error e) :
    (registerValidate (canonBase mc [] crs)).1 = .error e := by
  have hmc' : ¬ (mc.length > 256 * 1024) := by omega
  unfold registerValidate
  rw [scanBase_canon]
  simp only [canonBase, lookupEntry, setEntry, List.map_nil]
  simp [hmc', checkCases, hashRenameLoop, hchk]

/-- C8: the size checks of `register` sit exactly at the documented
boundaries — a `main.c` of exactly 256 KiB is accepted while one more byte
is rejected with the `main.c is too big` error; a test case of exactly 1024
bytes under `input/` or `crash/` is accepted while 1025 bytes is rejected;
and empty `input/` and `crash/` directories are accepted. -/
theorem c8_size_boundaries (sha3 : List Nat → List Nat) (asset : List Nat) (reg : RegState)
    (mc big c1024 c1025 : List Nat) (nm : String)
    (h1 : mc.length = 262144) (h2 : big.length = 262145)
    (h3 : c1024.length = 1024) (h4 : c1025.length = 1025) :
    (∃ p, (register sha3 asset ioAllOk reg (canonBase mc [] [])).res = .ok p) ∧
    (register sha3 asset ioAllOk reg (canonBase big [] [])).res =
      .error "main.c is too big" ∧
    (∃ p, (register sha3 asset ioAllOk reg
      (canonBase [] [(nm, c1024)] [(nm, c1024)])).res = .ok p) ∧
    (register sha3 asset ioAllOk reg (canonBase [] [(nm, c1025)] [])).res =
      .error ("input/" ++ nm ++ " is too big") ∧
    (register sha3 asset ioAllOk reg (canonBase [] [] [(nm, c1025)])).res =
      .error ("crash/" ++ nm ++ " is too big") := by
  refine ⟨?_, ?_, ?_, ?_, ?_⟩
  · exact register_canon_isOk sha3 asset reg mc [] [] (by omega) (by simp) (by simp)
      (by rfl) (by rfl)
  · have hred : register sha3 asset ioAllOk reg (canonBase big [] []) =
        registerBase sha3 asset ioAllOk reg (canonBase big [] []) := rfl
    rw [hred]
    exact registerValidate_error_res _ _ _ _ _ _
      (registerValidate_canon_mainTooBig big [] [] (by omega))
  · refine register_canon_isOk sha3 asset reg [] [(nm, c1024)] [(nm, c1024)] (by simp) ?_ ?_
      (by rfl) (by rfl)
    · intro p hp
      simp only [List.mem_singleton] at hp
      subst hp
      exact le_of_eq h3
    · intro p hp
      simp only [List.mem_singleton] at hp
      subst hp
      exact le_of_eq h3
  · have hred : register sha3 asset ioAllOk reg (canonBase [] [(nm, c1025)] []) =
        registerBase sha3 asset ioAllOk reg (canonBase [] [(nm, c1025)] []) := rfl
    rw [hred]
    refine registerValidate_error_res _ _ _ _ _ _
      (registerValidate_canon_badInput [] [(nm, c1025)] [] (by simp) _ ?_)
    simp only [List.map_cons, List.map_nil, checkCases]
    rw [if_pos (by omega)]
    rfl
  · have hred : register sha3 asset ioAllOk reg (canonBase [] [] [(nm, c1025)]) =
        registerBase sha3 asset ioAllOk reg (canonBase [] [] [(nm, c1025)]) := rfl
    rw [hred]
    refine registerValidate_error_res _ _ _ _ _ _
      (registerValidate_canon_badCrash [] [(nm, c1025)] (by simp) _ ?_)
    simp only [List.map_cons, List.map_nil, checkCases]
    rw [if_pos (by omega)]
    rfl


/-- Witness for C8 at concrete contents of exactly the boundary sizes. -/
theorem c8_witness :
    (∃ p, (register sha3c [] ioAllOk []
      (canonBase (List.replicate 262144 0) [] [])).res = .ok p) ∧
    (register sha3c [] ioAllOk [] (canonBase (List.replicate 262145 0) [] [])).res =
      .error "main.c is too big" ∧
    (∃ p, (register sha3c [] ioAllOk []
      (canonBase [] [("t", List.replicate 1024 0)] [("t", List.replicate 1024 0)])).res =
        .ok p) ∧
    (register sha3c [] ioAllOk []
      (canonBase [] [("t", List.replicate 1025 0)] [])).res =
      .error ("input/" ++ "t" ++ " is too big") ∧
    (register sha3c [] ioAllOk []
      (canonBase [] [] [("t", List.replicate 1025 0)])).res =
      .error ("crash/" ++ "t" ++ " is too big") :=
  c8_size_boundaries sha3c [] [] (List.replicate 262144 0) (List.replicate 262145 0)
    (List.replicate 1024 0) (List.replicate 1025 0) "t" (List.length_replicate _ _)
    (List.length_replicate _ _) (List.length_replicate _ _) (List.length_replicate _ _)

/-- C9 (amended): the worker administrative binary treats `FORCE_PROVISION`
as the rebuild flag — the value `"1"` means rebuild all images from
scratch, and an absent variable or any other value means reuse existing
images — but its process exit code is 0 both when provisioning succeeds and
when it fails; a provisioning failure is only logged to stderr. -/
theorem c9_env_flag_and_exit (env : Option String) (pf : Bool → Except String Unit)
    (v : String) (hv : v ≠ "1") :
    forceProvision (some "1") = true ∧ forceProvision none = false ∧
      forceProvision (some v) = false ∧ workerMain env pf = 0 := by
  refine ⟨rfl, rfl, ?_, ?_⟩
  · simp [forceProvision, hv]
  · unfold workerMain
    rcases pf (forceProvision env) with e | u
    · rfl
    · rfl

/-- Witness for C9 at a concrete environment and provisioning function. -/
theorem c9_witness :
    forceProvision (some "1") = true ∧ forceProvision none = false ∧
      forceProvision (some "yes") = false ∧
      workerMain (some "yes") (fun _ => .ok ()) = 0 :=
  c9_env_flag_and_exit (some "yes") (fun _ => .ok ()) "yes" (by decide)

/-- Counterexample to C9 as stated: a run whose provisioning fails still
exits with code 0 — the claim requires a nonzero exit code on provisioning
failure. -/
theorem c9_counterexample :
    workerMain (some "1") (fun _ => .error "provisioning failed") = 0 := rfl

theorem registerBase_validate_error (sha3 : List Nat → List Nat) (asset : List Nat)
    (orc : InstallOracle) (reg : RegState) (es : List (String × FNode)) (e : String)
    (es' : List (String × FNode)) (h : registerValidate es = (.error e, es')) :
    registerBase sha3 asset orc reg es = ⟨.error e, es', reg⟩ := by
  unfold registerBase
  rw [h]

theorem registerBase_validate_ok_src (sha3 : List Nat → List Nat) (asset : List Nat)
    (orc : InstallOracle) (reg : RegState) (es : List (String × FNode)) (stream : List Nat)
    (es' : List (String × FNode)) (h : registerValidate es = (.ok stream, es')) :
    (registerBase sha3 asset orc reg es).src = es' := by
  unfold registerBase
  rw [h]
  by_cases hex : (regLookup reg (hexEncode (sha3 stream))).isSome = true
  · simp [hex]
  · simp only [hex, Bool.false_eq_true, if_false]
    by_cases hmk : (!orc.mkdirOk) = true
    · simp [hmk]
    · rw [if_neg hmk]
      rcases hinst : installPacket asset orc (reg ++ [(hexEncode (sha3 stream), [])])
          (hexEncode (sha3 stream)) es' with ⟨ir, reg2⟩
      cases ir <;> rfl

theorem registerBase_validateOk_isOk (sha3 : List Nat → List Nat) (asset : List Nat)
    (reg : RegState) (es : List (String × FNode)) (stream : List Nat)
    (es' : List (String × FNode)) (hval : registerValidate es = (.ok stream, es')) :
    ∃ p, (registerBase sha3 asset ioAllOk reg es).res = .ok p := by
  unfold registerBase
  rw [hval]
  by_cases hex : (regLookup reg (hexEncode (sha3 stream))).isSome = true
  · refine ⟨(hexEncode (sha3 stream), true), ?_⟩
    simp [hex]
  · refine ⟨(hexEncode (sha3 stream), false), ?_⟩
    have hmk : (!ioAllOk.mkdirOk) = false := rfl
    simp only [hex, hmk, if_false, Bool.false_eq_true]
    rw [installPacket_allOk]

/-- C10 (amended): `register` mutates the caller-supplied source directory
in place — it deletes `README*` files and `output*` directories from the
base and, provided no test file under `input/` or `crash/` bears the
decimal name of an earlier-listed sibling's index, renames every child of
those directories to its decimal index with its content preserved (without
that proviso the per-index `fs::rename` silently overwrites and destroys
the like-named sibling instead — see the counterexample); the mutations
persist with no rollback, both on success (including when `register`
returns `existed = true` for any registry state) and when the call fails
partway through validation, for example when `crash/` is missing after the
`input/` entries were already renamed. -/
theorem c10_register_mutates_source (sha3 : List Nat → List Nat) (asset : List Nat)
    (reg : RegState) (rdm : List Nat) (outs : List (String × FNode))
    (mc : List Nat) (ins crs : List (String × List Nat))
    (hmc : mc.length ≤ 256 * 1024)
    (hin : ∀ p ∈ ins, (p.2 : List Nat).length ≤ 1024)
    (hcr : ∀ p ∈ crs, (p.2 : List Nat).length ≤ 1024)
    (hsi : namesSafeB 0 (ins.map Prod.fst) = true)
    (hsc : namesSafeB 0 (crs.map Prod.fst) = true) :
    (∃ p, (register sha3 asset ioAllOk reg (("README.md", FNode.file rdm) ::
      ("outputs", FNode.dir outs) :: canonBase mc ins crs)).res = .ok p) ∧
    lookupEntry (register sha3 asset ioAllOk reg (("README.md", FNode.file rdm) ::
      ("outputs", FNode.dir outs) :: canonBase mc ins crs)).src "README.md" = none ∧
    lookupEntry (register sha3 asset ioAllOk reg (("README.md", FNode.file rdm) ::
      ("outputs", FNode.dir outs) :: canonBase mc ins crs)).src "outputs" = none ∧
    (∃ d, lookupEntry (register sha3 asset ioAllOk reg (("README.md", FNode.file rdm) ::
      ("outputs", FNode.dir outs) :: canonBase mc ins crs)).src "input" =
        some (FNode.dir d) ∧
      d.length = ins.length ∧ casesRenamed d 0 (ins.map Prod.snd)) ∧
    (∃ d, lookupEntry (register sha3 asset ioAllOk reg (("README.md", FNode.file rdm) ::
      ("outputs", FNode.dir outs) :: canonBase mc ins crs)).src "crash" =
        some (FNode.dir d) ∧
      d.length = crs.length ∧ casesRenamed d 0 (crs.map Prod.snd)) ∧
    (register sha3 asset ioAllOk reg
      [("README.md", FNode.file rdm), ("main.c", FNode.file mc),
       ("input", FNode.dir (ins.map fun p => (p.1, FNode.file p.2)))]).res =
      .error "crash/ is missing" ∧
    lookupEntry (register sha3 asset ioAllOk reg
      [("README.md", FNode.file rdm), ("main.c", FNode.file mc),
       ("input", FNode.dir (ins.map fun p => (p.1, FNode.file p.2)))]).src "README.md" =
      none ∧
    (∃ d, lookupEntry (register sha3 asset ioAllOk reg
      [("README.md", FNode.file rdm), ("main.c", FNode.file mc),
       ("input", FNode.dir (ins.map fun p => (p.1, FNode.file p.2)))]).src "input" =
        some (FNode.dir d) ∧
      d.length = ins.length ∧ casesRenamed d 0 (ins.map Prod.snd)) ∧
    (register sha3 asset ioAllOk reg
      [("README.md", FNode.file rdm), ("main.c", FNode.file mc),
       ("input", FNode.dir (ins.map fun p => (p.1, FNode.file p.2)))]).reg = reg := by
  have hscanA : scanBase (("README.md", FNode.file rdm) ::
      ("outputs", FNode.dir outs) :: canonBase mc ins crs) = (.ok (), canonBase mc ins crs) := by
    rw [scanBase_cons, if_neg (by decide), if_pos (by rfl)]
    rw [scanBase_cons, if_neg (by decide), if_neg (by simp [FNode.isFile]), if_pos (by rfl)]
    exact scanBase_canon mc ins crs
  obtain ⟨din, dcr, hvalA, hlin, hrin, hlcr, hrcr⟩ :=
    registerValidate_of_scan _ mc ins crs hscanA hmc hin hcr hsi hsc
  have hscanB : scanBase [("README.md", FNode.file rdm), ("main.c", FNode.file mc),
      ("input", FNode.dir (ins.map fun p => (p.1, FNode.file p.2)))] =
      (.ok (), [("main.c", FNode.file mc),
        ("input", FNode.dir (ins.map fun p => (p.1, FNode.file p.2)))]) := by
    rw [scanBase_cons, if_neg (by decide), if_pos (by rfl)]
    rfl
  have hmc' : ¬ (mc.length > 256 * 1024) := by omega
  obtain ⟨dinB, hrunB, hlenB, hrenB, -⟩ :=
    hashRenameLoop_safe "input" ins 0 [] []
      hsi (by simp) (by simp) (by simp)
  simp only [List.nil_append, List.append_nil, List.length_nil] at hrunB hlenB
  have hvalB : registerValidate [("README.md", FNode.file rdm), ("main.c", FNode.file mc),
      ("input", FNode.dir (ins.map fun p => (p.1, FNode.file p.2)))] =
      (.error "crash/ is missing",
       [("main.c", FNode.file mc), ("input", FNode.dir dinB)]) := by
    unfold registerValidate
    rw [hscanB]
    simp only [lookupEntry, setEntry]
    simp [hmc', checkCases_map_ok _ _ hin, hrunB, setEntry, lookupEntry]
  have hredA : register sha3 asset ioAllOk reg (("README.md", FNode.file rdm) ::
      ("outputs", FNode.dir outs) :: canonBase mc ins crs) =
      registerBase sha3 asset ioAllOk reg (("README.md", FNode.file rdm) ::
        ("outputs", FNode.dir outs) :: canonBase mc ins crs) := rfl
  have hredB : register sha3 asset ioAllOk reg
      [("README.md", FNode.file rdm), ("main.c", FNode.file mc),
       ("input", FNode.dir (ins.map fun p => (p.1, FNode.file p.2)))] =
      registerBase sha3 asset ioAllOk reg
        [("README.md", FNode.file rdm), ("main.c", FNode.file mc),
         ("input", FNode.dir (ins.map fun p => (p.1, FNode.file p.2)))] := rfl
  have hsrcA : (register sha3 asset ioAllOk reg (("README.md", FNode.file rdm) ::
      ("outputs", FNode.dir outs) :: canonBase mc ins crs)).src =
      setEntry (setEntry (canonBase mc ins crs) "input" (FNode.dir din)) "crash"
        (FNode.dir dcr) := by
    rw [hredA]
    exact registerBase_validate_ok_src _ _ _ _ _ _ _ hvalA
  refine ⟨?_, ?_, ?_, ?_, ?_, ?_, ?_, ?_, ?_⟩
  · rw [hredA]
    exact registerBase_validateOk_isOk _ _ _ _ _ _ hvalA
  · rw [hsrcA, lookupEntry_setEntry_ne _ _ _ _ (by decide),
      lookupEntry_setEntry_ne _ _ _ _ (by decide)]
    simp [canonBase, lookupEntry]
  · rw [hsrcA, lookupEntry_setEntry_ne _ _ _ _ (by decide),
      lookupEntry_setEntry_ne _ _ _ _ (by decide)]
    simp [canonBase, lookupEntry]
  · refine ⟨din, ?_, hlin, hrin⟩
    rw [hsrcA, lookupEntry_setEntry_ne _ _ _ _ (by decide)]
    exact lookupEntry_setEntry_self _ _ _ (by simp [canonBase, lookupEntry])
  · refine ⟨dcr, ?_, hlcr, hrcr⟩
    rw [hsrcA]
    refine lookupEntry_setEntry_self _ _ _ ?_
    rw [lookupEntry_setEntry_isSome]
    simp [canonBase, lookupEntry]
  · rw [hredB, registerBase_validate_error _ _ _ _ _ _ _ hvalB]
  · rw [hredB, registerBase_validate_error _ _ _ _ _ _ _ hvalB]
    simp [lookupEntry]
  · refine ⟨dinB, ?_, by omega, hrenB⟩
    rw [hredB, registerBase_validate_error _ _ _ _ _ _ _ hvalB]
    simp [lookupEntry]
  · rw [hredB, registerBase_validate_error _ _ _ _ _ _ _ hvalB]

/-- Witness for C10 at a concrete submission with a README file, an output
directory, two input cases and one crash case. -/
theorem c10_witness :
    (∃ p, (register sha3c [] ioAllOk [] (("README.md", FNode.file [82]) ::
      ("outputs", FNode.dir []) ::
      canonBase [0] [("t1", [1]), ("t2", [2])] [("c1", [3])])).res = .ok p) ∧
    lookupEntry (register sha3c [] ioAllOk [] (("README.md", FNode.file [82]) ::
      ("outputs", FNode.dir []) ::
      canonBase [0] [("t1", [1]), ("t2", [2])] [("c1", [3])])).src "README.md" = none ∧
    lookupEntry (register sha3c [] ioAllOk [] (("README.md", FNode.file [82]) ::
      ("outputs", FNode.dir []) ::
      canonBase [0] [("t1", [1]), ("t2", [2])] [("c1", [3])])).src "outputs" = none ∧
    (∃ d, lookupEntry (register sha3c [] ioAllOk [] (("README.md", FNode.file [82]) ::
      ("outputs", FNode.dir []) ::
      canonBase [0] [("t1", [1]), ("t2", [2])] [("c1", [3])])).src "input" =
        some (FNode.dir d) ∧
      d.length = [("t1", [1]), ("t2", [2])].length ∧
      casesRenamed d 0 ([("t1", [1]), ("t2", [2])].map Prod.snd)) ∧
    (∃ d, lookupEntry (register sha3c [] ioAllOk [] (("README.md", FNode.file [82]) ::
      ("outputs", FNode.dir []) ::
      canonBase [0] [("t1", [1]), ("t2", [2])] [("c1", [3])])).src "crash" =
        some (FNode.dir d) ∧
      d.length = [("c1", [3])].length ∧
      casesRenamed d 0 ([("c1", [3])].map Prod.snd)) ∧
    (register sha3c [] ioAllOk []
      [("README.md", FNode.file [82]), ("main.c", FNode.file [0]),
       ("input", FNode.dir ([("t1", [1]), ("t2", [2])].map fun p =>
         (p.1, FNode.file p.2)))]).res = .error "crash/ is missing" ∧
    lookupEntry (register sha3c [] ioAllOk []
      [("README.md", FNode.file [82]), ("main.c", FNode.file [0]),
       ("input", FNode.dir ([("t1", [1]), ("t2", [2])].map fun p =>
         (p.1, FNode.file p.2)))]).src "README.md" = none ∧
    (∃ d, lookupEntry (register sha3c [] ioAllOk []
      [("README.md", FNode.file [82]), ("main.c", FNode.file [0]),
       ("input", FNode.dir ([("t1", [1]), ("t2", [2])].map fun p =>
         (p.1, FNode.file p.2)))]).src "input" = some (FNode.dir d) ∧
      d.length = [("t1", [1]), ("t2", [2])].length ∧
      casesRenamed d 0 ([("t1", [1]), ("t2", [2])].map Prod.snd)) ∧
    (register sha3c [] ioAllOk []
      [("README.md", FNode.file [82]), ("main.c", FNode.file [0]),
       ("input", FNode.dir ([("t1", [1]), ("t2", [2])].map fun p =>
         (p.1, FNode.file p.2)))]).reg = [] :=
  c10_register_mutates_source sha3c [] [] [82] [] [0] [("t1", [1]), ("t2", [2])]
    [("c1", [3])] (by decide) (by decide) (by decide) (by decide) (by decide)

/-- Counterexample to C10 as stated: with `input/` listing the files `x`
then `0`, `register` succeeds, yet `input/` afterwards does not hold every
child renamed to its decimal index with its content preserved: the rename
of `x` (index 0) silently overwrote and destroyed test `0` (content byte
66), and the single surviving entry, named `1`, holds `x`'s content (byte
65); no entry named `0` remains and the directory shrank from two children
to one. -/
theorem c10_counterexample :
    (∃ p, (register (fun l => l) [] ioAllOk []
        [("main.c", FNode.file []),
         ("input", FNode.dir [("x", FNode.file [65]), ("0", FNode.file [66])]),
         ("crash", FNode.dir [])]).res = .ok p) ∧
    lookupEntry (register (fun l => l) [] ioAllOk []
        [("main.c", FNode.file []),
         ("input", FNode.dir [("x", FNode.file [65]), ("0", FNode.file [66])]),
         ("crash", FNode.dir [])]).src "input" =
      some (FNode.dir [("1", FNode.file [65])]) :=
  ⟨⟨(hexEncode (specStream [] [[65], [65]] []), false), rfl⟩, rfl⟩

theorem charListLt_trichotomy (as : List Char) :
    ∀ bs : List Char, charListLt as bs = true ∨ as = bs ∨ charListLt bs as = true := by
  induction as with
  | nil =>
    intro bs
    cases bs with
    | nil => exact Or.inr (Or.inl rfl)
    | cons b bs2 => exact Or.inl rfl
  | cons a as2 ih =>
    intro bs
    cases bs with
    | nil => exact Or.inr (Or.inr rfl)
    | cons b bs2 =>
      rcases Nat.lt_trichotomy a.toNat b.toNat with hlt | heq | hgt
      · left
        simp [charListLt, hlt]
      · have hab : a = b := by
          have h2 := congrArg Char.ofNat heq
          rwa [Char.ofNat_toNat, Char.ofNat_toNat] at h2
        subst hab
        rcases ih bs2 with h | h | h
        · left
          simp [charListLt, h]
        · right; left; rw [h]
        · right; right
          simp [charListLt, h]
      · right; right
        simp [charListLt, hgt]

theorem strLtB_trichotomy (a b : String) :
    strLtB a b = true ∨ a = b ∨ strLtB b a = true := by
  rcases charListLt_trichotomy a.toList b.toList with h | h | h
  · exact Or.inl h
  · refine Or.inr (Or.inl ?_)
    cases a with | mk da =>
    cases b with | mk db =>
    simp only [String.toList] at h
    exact congrArg String.mk h
  · exact Or.inr (Or.inr h)

theorem pLookup_insertSorted_self (l : List (String × PStatus)) (k : String) (v : PStatus) :
    pLookup (insertSorted l k v) k = some v := by
  induction l with
  | nil => simp [insertSorted, pLookup]
  | cons p rest ih =>
    obtain ⟨k0, v0⟩ := p
    by_cases h1 : strLtB k k0 = true
    · simp [insertSorted, h1, pLookup]
    · by_cases h2 : k = k0
      · subst h2
        simp [insertSorted, h1, pLookup]
      · simp [insertSorted, h1, h2, pLookup, Ne.symm h2, ih]

theorem pLookup_insertSorted_ne (l : List (String × PStatus)) (k k' : String) (v : PStatus)
    (h : k' ≠ k) : pLookup (insertSorted l k v) k' = pLookup l k' := by
  induction l with
  | nil => simp [insertSorted, pLookup, Ne.symm h]
  | cons p rest ih =>
    obtain ⟨k0, v0⟩ := p
    by_cases h1 : strLtB k k0 = true
    · simp [insertSorted, h1, pLookup, Ne.symm h]
    · by_cases h2 : k = k0
      · subst h2
        simp [insertSorted, h1, pLookup, Ne.symm h]
      · simp only [insertSorted, if_neg h1, if_neg h2]
        by_cases h3 : k0 = k'
        · subst h3
          simp [pLookup]
        · simp [pLookup, h3, ih]

theorem pLookup_scanMap_notin (entries : List RootEntry) :
    ∀ (acc : List (String × PStatus)) (k : String), (∀ e ∈ entries, e.name ≠ k) →
      pLookup (scanMap entries acc) k = pLookup acc k := by
  induction entries with
  | nil => intro acc k _; rfl
  | cons e0 rest ih =>
    intro acc k h
    simp only [scanMap]
    rw [ih _ _ fun e' he' => h e' (List.mem_cons_of_mem _ he')]
    exact pLookup_insertSorted_ne _ _ _ _ (Ne.symm (h e0 (List.mem_cons_self _ _)))

theorem pLookup_scanMap (entries : List RootEntry) :
    ∀ (acc : List (String × PStatus)), (entries.map RootEntry.name).Nodup →
      ∀ e ∈ entries, pLookup (scanMap entries acc) e.name =
        some (if e.hasResult then .completed else .received) := by
  induction entries with
  | nil => intro acc _ e he; cases he
  | cons e0 rest ih =>
    intro acc hnd e he
    simp only [scanMap]
    rcases List.mem_cons.mp he with rfl | hmem
    · have hnotin : ∀ e' ∈ rest, e'.name ≠ e.name := by
        intro e' he' heq
        have hmm : e.name ∈ rest.map RootEntry.name := List.mem_map.mpr ⟨e', he', heq⟩
        simp only [List.map_cons, List.nodup_cons] at hnd
        exact hnd.1 hmm
      rw [pLookup_scanMap_notin rest _ _ hnotin]
      exact pLookup_insertSorted_self _ _ _
    · have hnd' : (rest.map RootEntry.name).Nodup := by
        simp only [List.map_cons, List.nodup_cons] at hnd
        exact hnd.2
      exact ih _ hnd' e hmem

theorem insertSorted_head_lt (rest : List (String × PStatus)) (k : String) (v : PStatus)
    (k0 : String) (hk : strLtB k0 k = true)
    (hr : ∀ b ∈ rest.head?, strLtB k0 b.1 = true) :
    ∀ b ∈ (insertSorted rest k v).head?, strLtB k0 b.1 = true := by
  cases rest with
  | nil => simpa [insertSorted] using hk
  | cons p rest2 =>
    obtain ⟨k1, v1⟩ := p
    by_cases h1 : strLtB k k1 = true
    · simpa [insertSorted, h1] using hk
    · by_cases h2 : k = k1
      · subst h2
        simpa [insertSorted, h1] using hk
      · simpa [insertSorted, h1, h2] using hr

theorem insertSorted_chain (l : List (String × PStatus)) (k : String) (v : PStatus)
    (h : List.Chain' (fun a b => strLtB a.1 b.1 = true) l) :
    List.Chain' (fun a b => strLtB a.1 b.1 = true) (insertSorted l k v) := by
  induction l with
  | nil => simp [insertSorted]
  | cons p rest ih =>
    obtain ⟨k0, v0⟩ := p
    rw [List.chain'_cons'] at h
    obtain ⟨hhead, htail⟩ := h
    by_cases h1 : strLtB k k0 = true
    · simp only [insertSorted, if_pos h1]
      rw [List.chain'_cons']
      refine ⟨?_, ?_⟩
      · intro b hb
        simp at hb
        subst hb
        exact h1
      · rw [List.chain'_cons']
        exact ⟨hhead, htail⟩
    · by_cases h2 : k = k0
      · subst h2
        simp only [insertSorted, if_neg h1, eq_self_iff_true, if_true]
        rw [List.chain'_cons']
        exact ⟨hhead, htail⟩
      · have h3 : strLtB k0 k = true := by
          rcases strLtB_trichotomy k k0 with ha | ha | ha
          · exact absurd ha h1
          · exact absurd ha h2
          · exact ha
        simp only [insertSorted, if_neg h1, if_neg h2]
        rw [List.chain'_cons']
        exact ⟨insertSorted_head_lt rest k v k0 h3 hhead, ih htail⟩

theorem scanMap_chain (entries : List RootEntry) :
    ∀ (acc : List (String × PStatus)), List.Chain' (fun a b => strLtB a.1 b.1 = true) acc →
      List.Chain' (fun a b => strLtB a.1 b.1 = true) (scanMap entries acc) := by
  induction entries with
  | nil => intro acc h; exact h
  | cons e rest ih => intro acc h; exact ih _ (insertSorted_chain _ _ _ h)

theorem serverInit_fold (ps : List (String × PStatus)) :
    ∀ (r : RegistryM) (q : List String),
      ((ps.foldl (fun acc p => if p.2 = .received then (queueOp acc.1 p.1, acc.2 ++ [p.1])
          else acc) (r, q)).1.queue = r.queue ++ receivedNames ps) ∧
      ((ps.foldl (fun acc p => if p.2 = .received then (queueOp acc.1 p.1, acc.2 ++ [p.1])
          else acc) (r, q)).2 = q ++ receivedNames ps) := by
  induction ps with
  | nil => intro r q; simp [receivedNames]
  | cons p rest ih =>
    intro r q
    by_cases h : p.2 = .received
    · simp only [List.foldl_cons, if_pos h]
      obtain ⟨ih1, ih2⟩ := ih (queueOp r p.1) (q ++ [p.1])
      constructor
      · rw [ih1]
        simp [queueOp, receivedNames, List.filter_cons, h]
      · rw [ih2]
        simp [receivedNames, List.filter_cons, h]
    · simp only [List.foldl_cons, if_neg h]
      obtain ⟨ih1, ih2⟩ := ih r q
      constructor
      · rw [ih1]
        simp [receivedNames, List.filter_cons, h]
      · rw [ih2]
        simp [receivedNames, List.filter_cons, h]

/-- C4 (amended): `Registry::new` fails unless the root is an existing
directory, and otherwise records `(H, Completed)` for every child with
`result.json` and deletes a stray `error` file and records `(H, Received)`
for the rest — but it leaves the queue empty: no hash is queued as part of
construction.  The server's startup loop afterwards queues every `Received`
hash, in ascending hash order (the sorted `BTreeMap` iteration order), not
in the order discovered. -/
theorem c4_registry_new_and_startup (rootExists rootIsDir : Bool)
    (entries : List RootEntry) (r : RegistryM) :
    ((rootExists && rootIsDir) = false →
      registryNew rootExists rootIsDir entries = .error "invalid root path for registry") ∧
    registryNew true true entries = .ok (⟨scanMap entries [], []⟩, cleanEntries entries) ∧
    ((entries.map RootEntry.name).Nodup → ∀ e ∈ entries,
      pLookup (scanMap entries []) e.name =
        some (if e.hasResult then .completed else .received)) ∧
    List.Chain' (fun a b => strLtB a.1 b.1 = true) (scanMap entries []) ∧
    (serverInit r).1.queue = r.queue ++ receivedNames r.packets ∧
    (serverInit r).2 = receivedNames r.packets := by
  refine ⟨?_, rfl, ?_, ?_, ?_, ?_⟩
  · intro h
    simp [registryNew, h]
  · intro hnd e he
    exact pLookup_scanMap entries [] hnd e he
  · exact scanMap_chain entries [] List.chain'_nil
  · exact (serverInit_fold r.packets r []).1
  · exact (serverInit_fold r.packets r []).2

/-- Witness for C4 at a concrete root listing. -/
theorem c4_witness :
    registryNew false true [⟨"b", false, true⟩] = .error "invalid root path for registry" ∧
    pLookup (scanMap [⟨"b", false, true⟩] []) "b" = some PStatus.received := by
  have h := c4_registry_new_and_startup false true [⟨"b", false, true⟩] ⟨[], []⟩
  refine ⟨h.1 rfl, ?_⟩
  exact h.2.2.1 (by simp) ⟨"b", false, true⟩ (List.mem_singleton.mpr rfl)

/-- Counterexample to C4 as stated: with children discovered in the order
b, a (neither holding result.json), construction leaves the queue empty —
not [b, a] as the claim requires — and even after the server startup loop
the queue is [a, b] (sorted order), not the discovery order [b, a]. -/
theorem c4_counterexample :
    registryNew true true [⟨"b", false, false⟩, ⟨"a", false, false⟩] =
      .ok (⟨[("a", PStatus.received), ("b", PStatus.received)], []⟩,
        [⟨"b", false, false⟩, ⟨"a", false, false⟩]) ∧
    (serverInit ⟨[("a", PStatus.received), ("b", PStatus.received)], []⟩).1.queue =
      ["a", "b"] ∧
    (["a", "b"] : List String) ≠ ["b", "a"] := by
  refine ⟨rfl, rfl, by decide⟩
